import Mathlib

/-!
# CORS policy engine of hertz-contrib/cors

A shallow embedding of `config.go` and `cors.go`: the configuration, its
validation, the compilation of wildcard rules, the construction of the
compiled policy and the origin decision, followed by theorems about them.

Conventions of the embedding.
* A Go `string` is its sequence of bytes, `List Nat` (each byte a natural
  number below 256); theorems hold for every list.
* A Go `error` return or a `panic` is the `Except.error` branch, carrying the
  message bytes.
* A Go `func(string) bool` that may be `nil` is `Option (GoString → Bool)`.
* A Go `map[string]string` is an association list in insertion order.
-/

set_option autoImplicit false

namespace Cors

/-- A Go string: the sequence of its bytes. -/
abbrev GoString := List Nat

/-- Bytes of an ASCII string literal. -/
def bytes (s : String) : GoString := s.toList.map Char.toNat

/-! ## The `strings` functions the program calls -/

/-- Go `strings.HasPrefix(s, pre)`: `len(s) >= len(pre) && s[:len(pre)] == pre`. -/
def HasPrefix (s pre : GoString) : Bool :=
  decide (pre.length ≤ s.length) && decide (s.take pre.length = pre)

/-- Go `strings.HasSuffix(s, suf)`:
`len(s) >= len(suf) && s[len(s)-len(suf):] == suf`. -/
def HasSuffix (s suf : GoString) : Bool :=
  decide (suf.length ≤ s.length) && decide (s.drop (s.length - suf.length) = suf)

/-- Go `strings.Index(s, sub)` for a one-byte `sub` (the program only searches
for `"*"`): the index of the first occurrence of byte `b`, or `-1`. -/
def Index (s : GoString) (b : Nat) : Int :=
  if b ∈ s then (s.indexOf b : Int) else -1

/-- Go `strings.Contains(s, sub)` for a one-byte `sub`: `Index(s, sub) >= 0`. -/
def Contains (s : GoString) (b : Nat) : Bool := decide (0 ≤ Index s b)

/-- Go `strings.Count(s, sub)` for a one-byte `sub`: the number of occurrences. -/
def Count (s : GoString) (b : Nat) : Nat := s.count b

/-- Go `strings.Join(elems, sep)`. -/
def Join (elems : List GoString) (sep : GoString) : GoString :=
  List.intercalate sep elems

/-- The byte `*`. -/
def starByte : Nat := 42

/-- The string `"*"`. -/
def star : GoString := [starByte]

deriving instance DecidableEq for Except

/-- Go slice expression `s[lo:]`; panics when `lo` is out of range. -/
def sliceFrom (s : GoString) (lo : Int) : Except GoString GoString :=
  if 0 ≤ lo ∧ lo ≤ (s.length : Int) then .ok (s.drop lo.toNat)
  else .error (bytes "slice bounds out of range")

/-- Go slice expression `s[:hi]`; panics when `hi` is out of range. -/
def sliceTo (s : GoString) (hi : Int) : Except GoString GoString :=
  if 0 ≤ hi ∧ hi ≤ (s.length : Int) then .ok (s.take hi.toNat)
  else .error (bytes "slice bounds out of range")

/-! ## `config.go` -/

/-- Config represents all available options for the middleware. `MaxAge` is a
`time.Duration`, a number of nanoseconds. -/
structure Config where
  AllowAllOrigins : Bool := false
  AllowOrigins : List GoString := []
  AllowOriginFunc : Option (GoString → Bool) := none
  AllowMethods : List GoString := []
  AllowHeaders : List GoString := []
  AllowCredentials : Bool := false
  ExposeHeaders : List GoString := []
  MaxAge : Int := 0
  AllowWildcard : Bool := false
  AllowBrowserExtensions : Bool := false
  AllowWebSockets : Bool := false
  AllowFiles : Bool := false

/-- `Config.AddAllowMethods`: the configuration after the call. -/
def Config.AddAllowMethods (c : Config) (methods : List GoString) : Config :=
  { c with AllowMethods := c.AllowMethods ++ methods }

/-- `Config.AddAllowHeaders`: the configuration after the call. -/
def Config.AddAllowHeaders (c : Config) (headers : List GoString) : Config :=
  { c with AllowHeaders := c.AllowHeaders ++ headers }

/-- `Config.AddExposeHeaders`: the configuration after the call. -/
def Config.AddExposeHeaders (c : Config) (headers : List GoString) : Config :=
  { c with ExposeHeaders := c.ExposeHeaders ++ headers }

/-- The package variable `DefaultSchemas`. -/
def DefaultSchemas : List GoString := [bytes "http://", bytes "https://"]

/-- The package variable `ExtensionSchemas`. -/
def ExtensionSchemas : List GoString :=
  [bytes "chrome-extension://", bytes "safari-extension://",
   bytes "moz-extension://", bytes "ms-browser-extension://"]

/-- The package variable `FileSchemas`. -/
def FileSchemas : List GoString := [bytes "file://"]

/-- The package variable `WebSocketSchemas`. -/
def WebSocketSchemas : List GoString := [bytes "ws://", bytes "wss://"]

/-- `Config.getAllowedSchemas`. -/
def Config.getAllowedSchemas (c : Config) : List GoString :=
  let allowedSchemas := DefaultSchemas
  let allowedSchemas :=
    if c.AllowBrowserExtensions then allowedSchemas ++ ExtensionSchemas else allowedSchemas
  let allowedSchemas :=
    if c.AllowWebSockets then allowedSchemas ++ WebSocketSchemas else allowedSchemas
  let allowedSchemas :=
    if c.AllowFiles then allowedSchemas ++ FileSchemas else allowedSchemas
  allowedSchemas

/-- The loop of `Config.validateAllowedSchemas` over the remaining schemas. -/
def schemaLoop (origin : GoString) : List GoString → Bool
  | [] => false
  | schema :: rest => if HasPrefix origin schema then true else schemaLoop origin rest

/-- `Config.validateAllowedSchemas`. -/
def Config.validateAllowedSchemas (c : Config) (origin : GoString) : Bool :=
  schemaLoop origin c.getAllowedSchemas

/-- The `for _, origin := range c.AllowOrigins` loop of `Config.Validate` over
the remaining origins. -/
def Config.validateLoop (c : Config) : List GoString → Except GoString Unit
  | [] => .ok ()
  | origin :: rest =>
    if !Contains origin starByte && !c.validateAllowedSchemas origin then
      .error (bytes "bad origin: origins must contain \x27*\x27 or include "
        ++ Join c.getAllowedSchemas (bytes ","))
    else c.validateLoop rest

/-- `Config.Validate`: `Except.ok ()` is the `nil` error. -/
def Config.Validate (c : Config) : Except GoString Unit :=
  if c.AllowAllOrigins && (c.AllowOriginFunc.isSome || decide (c.AllowOrigins.length > 0)) then
    .error (bytes
      "conflict settings: all origins are allowed. AllowOriginFunc or AllowOrigins is not needed")
  else if !c.AllowAllOrigins && c.AllowOriginFunc.isNone
      && decide (c.AllowOrigins.length = 0) then
    .error (bytes "conflict settings: all origins disabled")
  else c.validateLoop c.AllowOrigins

/-- A wildcard rule, the two-element `[]string` of the source: `(w[0], w[1])`. -/
abbrev WildcardRule := GoString × GoString

/-- The `for _, o := range c.AllowOrigins` loop of `Config.parseWildcardRules`
over the remaining origins, `wRules` being the rules appended so far. -/
def parseWildcardLoop : List GoString → List WildcardRule → Except GoString (List WildcardRule)
  | [], wRules => .ok wRules
  | o :: rest, wRules =>
    if !Contains o starByte then parseWildcardLoop rest wRules
    else if Count o starByte > 1 then .error (bytes "only one * is allowed")
    else
      let i := Index o starByte
      if i = 0 then
        match sliceFrom o 1 with
        | .error e => .error e
        | .ok s => parseWildcardLoop rest (wRules ++ [(star, s)])
      else if i = (o.length : Int) - 1 then
        match sliceTo o (i - 1) with
        | .error e => .error e
        | .ok p => parseWildcardLoop rest (wRules ++ [(p, star)])
      else
        match sliceTo o i, sliceFrom o (i + 1) with
        | .error e, _ => .error e
        | .ok _, .error e => .error e
        | .ok p, .ok s => parseWildcardLoop rest (wRules ++ [(p, s)])

/-- `Config.parseWildcardRules`; `Except.error` is the panic. -/
def Config.parseWildcardRules (c : Config) : Except GoString (List WildcardRule) :=
  if !c.AllowWildcard then .ok []
  else parseWildcardLoop c.AllowOrigins []

/-! ## `utils.go` (not among the sources read here) -/

/-- ASCII white space, as trimmed by Go `strings.TrimSpace`. -/
def isSpace (b : Nat) : Bool := b = 9 || b = 10 || b = 11 || b = 12 || b = 13 || b = 32

/-- Go `strings.TrimSpace` on ASCII white space. -/
def TrimSpace (s : GoString) : GoString :=
  ((s.dropWhile isSpace).reverse.dropWhile isSpace).reverse

/-- Go `strings.ToLower` on ASCII letters. -/
def ToLower (s : GoString) : GoString :=
  s.map fun b => if 65 ≤ b ∧ b ≤ 90 then b + 32 else b

/-- Go `strings.ToUpper` on ASCII letters. -/
def ToUpper (s : GoString) : GoString :=
  s.map fun b => if 97 ≤ b ∧ b ≤ 122 then b - 32 else b

/-- Modelled from the spec: the loop of `normalize` (its source, `utils.go`, is
missing), `normalized` being the distinct values kept so far. -/
def normalizeLoop : List GoString → List GoString → List GoString
  | [], normalized => normalized
  | value :: rest, normalized =>
    let value := ToLower (TrimSpace value)
    if value ∈ normalized then normalizeLoop rest normalized
    else normalizeLoop rest (normalized ++ [value])

/-- Modelled from the spec: `normalize` (its source, `utils.go`, is missing).
The spec has the compiled origins "case-folded to lowercase" as a set, and
`TestNormalize` has the values white-space-trimmed, lower-cased and later
duplicates dropped, in order of first occurrence. -/
def normalize (values : List GoString) : List GoString := normalizeLoop values []

/-- Modelled from the spec: the title case ("canonical header casing") of a
header name: the first letter and every letter after a `-` upper case, the
others lower case. -/
def titleCase : Bool → GoString → GoString
  | _, [] => []
  | up, b :: rest =>
    (if up then (if 97 ≤ b ∧ b ≤ 122 then b - 32 else b)
      else (if 65 ≤ b ∧ b ≤ 90 then b + 32 else b)) :: titleCase (b = 45) rest

/-- Modelled from the spec: canonical header casing of a header name. -/
def CanonicalHeaderKey (s : GoString) : GoString := titleCase true s

/-- Go `strconv.FormatInt(n, 10)` for a non-negative `n`. -/
def FormatInt (n : Nat) : GoString := (Nat.toDigits 10 n).map Char.toNat

/-- A Go `map[string]string`, as an association list. -/
abbrev HeaderMap := List (GoString × GoString)

/-- The assignment `headers[key] = value` on a map. -/
def HeaderMap.set (headers : HeaderMap) (key value : GoString) : HeaderMap :=
  headers.filter (fun kv => kv.1 ≠ key) ++ [(key, value)]

/-- The removal of `key` from a map. -/
def HeaderMap.del (headers : HeaderMap) (key : GoString) : HeaderMap :=
  headers.filter (fun kv => kv.1 ≠ key)

/-- The value a map holds at `key`, if any (the entry written last). -/
def HeaderMap.lookup : HeaderMap → GoString → Option GoString
  | [], _ => none
  | (k, v) :: rest, key =>
    match HeaderMap.lookup rest key with
    | some w => some w
    | none => if k = key then some v else none

/-- Go `str2bytes`: the bytes of a string, unchanged. -/
def str2bytes (s : GoString) : GoString := s

/-- Modelled from the spec: `compareByteSlices(o, pre, host)` (its source,
`utils.go`, is missing): zero exactly when the origin `o` is the scheme `pre`
followed by the declared host. Only the comparison with zero is used. -/
def compareByteSlices (o pre host : GoString) : Int :=
  if o = pre ++ host then 0 else 1

/-- Modelled from the spec: `generateNormalHeaders` (its source, `utils.go`, is
missing): the pre-rendered headers of a non-preflight response. The expose
headers are rendered as the spec words it, "comma-joined, title-cased", entry
by entry in their original order. -/
def generateNormalHeaders (c : Config) : HeaderMap :=
  let headers : HeaderMap := []
  let headers :=
    if c.AllowCredentials then
      headers.set (bytes "Access-Control-Allow-Credentials") (bytes "true")
    else headers
  let headers :=
    if c.ExposeHeaders.length > 0 then
      headers.set (bytes "Access-Control-Expose-Headers")
        (Join (c.ExposeHeaders.map CanonicalHeaderKey) (bytes ","))
    else headers
  if c.AllowAllOrigins then headers.set (bytes "Access-Control-Allow-Origin") (bytes "*")
  else headers.set (bytes "Vary") (bytes "Origin")

/-- Modelled from the spec: `generatePreflightHeaders` (its source, `utils.go`,
is missing): the pre-rendered headers of a preflight response. The methods are
"comma-joined, upper-cased, whitespace-trimmed", and the tests have methods that
agree after trimming and case-folding rendered once (`normalize`); the allowed
headers are "comma-joined, title-cased, trimmed", entry by entry in their
original order. One second is `1000000000` nanoseconds. -/
def generatePreflightHeaders (c : Config) : HeaderMap :=
  let headers : HeaderMap := []
  let headers :=
    if c.AllowCredentials then
      headers.set (bytes "Access-Control-Allow-Credentials") (bytes "true")
    else headers
  let headers :=
    if c.AllowMethods.length > 0 then
      headers.set (bytes "Access-Control-Allow-Methods")
        (Join ((normalize c.AllowMethods).map ToUpper) (bytes ","))
    else headers
  let headers :=
    if c.AllowHeaders.length > 0 then
      headers.set (bytes "Access-Control-Allow-Headers")
        (Join (c.AllowHeaders.map (fun h => CanonicalHeaderKey (TrimSpace h))) (bytes ","))
    else headers
  let headers :=
    if c.MaxAge > 0 then
      headers.set (bytes "Access-Control-Max-Age") (FormatInt (c.MaxAge / 1000000000).toNat)
    else headers
  if c.AllowAllOrigins then headers.set (bytes "Access-Control-Allow-Origin") (bytes "*")
  else headers.set (bytes "Vary") (bytes "Origin")

/-! ## `cors.go` -/

/-- The compiled policy, `type cors struct`. -/
structure cors where
  allowAllOrigins : Bool
  allowCredentials : Bool
  allowOriginFunc : Option (GoString → Bool)
  allowOrigins : List GoString
  normalHeaders : HeaderMap
  preflightHeaders : HeaderMap
  wildcardOrigins : List WildcardRule

/-- The first loop of `newCors`: a literal `"*"` among the remaining origins
sets `config.AllowAllOrigins` (on the local copy of the configuration). -/
def allowAllLoop : List GoString → Config → Config
  | [], config => config
  | origin :: rest, config =>
    if origin = star then allowAllLoop rest { config with AllowAllOrigins := true }
    else allowAllLoop rest config

/-- `newCors`; `Except.error` is the panic, with the message of the failing
step. -/
def newCors (config : Config) : Except GoString cors :=
  match config.Validate with
  | .error err => .error err
  | .ok _ =>
    let config := allowAllLoop config.AllowOrigins config
    match config.parseWildcardRules with
    | .error e => .error e
    | .ok wRules =>
      .ok { allowOriginFunc := config.AllowOriginFunc
            allowAllOrigins := config.AllowAllOrigins
            allowCredentials := config.AllowCredentials
            allowOrigins := normalize config.AllowOrigins
            normalHeaders := generateNormalHeaders config
            preflightHeaders := generatePreflightHeaders config
            wildcardOrigins := wRules }

/-- The loop of `cors.validateWildcardOrigin` over the remaining rules. -/
def wildcardLoop (origin : GoString) : List WildcardRule → Bool
  | [] => false
  | w :: rest =>
    if w.1 = star && HasSuffix origin w.2 then true
    else if w.2 = star && HasPrefix origin w.1 then true
    else if HasPrefix origin w.1 && HasSuffix origin w.2 then true
    else wildcardLoop origin rest

/-- `cors.validateWildcardOrigin`. -/
def cors.validateWildcardOrigin (p : cors) (origin : GoString) : Bool :=
  wildcardLoop origin p.wildcardOrigins

/-- The loop `for _, value := range cors.allowOrigins` of `cors.validateOrigin`:
whether it returns true at some value. -/
def originLoop (origin : GoString) : List GoString → Bool
  | [] => false
  | value :: rest => if value = origin then true else originLoop origin rest

/-- `cors.validateOrigin`. -/
def cors.validateOrigin (p : cors) (origin : GoString) : Bool :=
  if p.allowAllOrigins then true
  else if originLoop origin p.allowOrigins then true
  else if decide (p.wildcardOrigins.length > 0) && p.validateWildcardOrigin origin then true
  else
    match p.allowOriginFunc with
    | some f => f origin
    | none => false

/-! ### The host HTTP stack, as far as the middleware uses it -/

/-- What the middleware reads of a request: the `Origin` header (empty when
absent), the declared host and the method. -/
structure Request where
  Origin : GoString
  Host : GoString
  Method : GoString
  deriving DecidableEq

/-- What the middleware can change of a response: its headers and status code;
the body is carried along. -/
structure Response where
  Header : HeaderMap
  StatusCode : Nat
  Body : GoString
  deriving DecidableEq

/-- The request context of the server path: request, response, and whether the
handler chain has been aborted. -/
structure RequestContext where
  Request : Request
  Response : Response
  aborted : Bool
  deriving DecidableEq

/-- `c.Response.Header.Set(key, value)`. -/
def RequestContext.SetHeader (c : RequestContext) (key value : GoString) : RequestContext :=
  { c with Response := { c.Response with Header := c.Response.Header.set key value } }

/-- `c.Header(key, value)`: sets the response header, and removes it when the
value is empty. -/
def RequestContext.Header (c : RequestContext) (key value : GoString) : RequestContext :=
  if value = [] then
    { c with Response := { c.Response with Header := c.Response.Header.del key } }
  else c.SetHeader key value

/-- `c.AbortWithStatus(code)`: fixes the status code and stops the handler
chain. -/
def RequestContext.AbortWithStatus (c : RequestContext) (code : Nat) : RequestContext :=
  { c with Response := { c.Response with StatusCode := code }, aborted := true }

/-- The package variable `DefaultHeaderBytes`. -/
def DefaultHeaderBytes : List GoString := [bytes "OPTIONS", bytes "GET", bytes "POST"]

/-- The package variable `DefaultSchemasBytes`. -/
def DefaultSchemasBytes : List GoString := [bytes "http://", bytes "https://"]

/-- The status code `consts.StatusForbidden`. -/
def StatusForbidden : Nat := 403

/-- The status code `consts.StatusNoContent`. -/
def StatusNoContent : Nat := 204

/-- The loop `for key, value := range m` of `handlePreflight`, `handleNormal`
and `handleProxyNormal` over the remaining entries of the map: every entry with
a non-empty value is set on the response headers `headers`. -/
def headerLoop : HeaderMap → HeaderMap → HeaderMap
  | [], headers => headers
  | (key, value) :: rest, headers =>
    if value.length > 0 then headerLoop rest (headers.set key value)
    else headerLoop rest headers

/-- `cors.handlePreflight`. -/
def cors.handlePreflight (p : cors) (c : RequestContext) : RequestContext :=
  { c with Response :=
      { c.Response with Header := headerLoop p.preflightHeaders c.Response.Header } }

/-- `cors.handleNormal`. -/
def cors.handleNormal (p : cors) (c : RequestContext) : RequestContext :=
  { c with Response :=
      { c.Response with Header := headerLoop p.normalHeaders c.Response.Header } }

/-- `cors.applyCors`: the request context after the middleware has run. The
deferred `AbortWithStatus(204)` of the preflight branch runs last. -/
def cors.applyCors (p : cors) (c : RequestContext) : RequestContext :=
  let origin := c.Request.Origin
  if origin.length = 0 then c
  else
    let host := c.Request.Host
    let o := str2bytes origin
    if HasPrefix o (DefaultSchemasBytes.getD 0 [])
        && decide (compareByteSlices o (DefaultSchemasBytes.getD 0 []) host = 0) then c
    else if HasPrefix o (DefaultSchemasBytes.getD 1 [])
        && decide (compareByteSlices o (DefaultSchemasBytes.getD 1 []) host = 0) then c
    else if !p.validateOrigin origin then c.AbortWithStatus StatusForbidden
    else if c.Request.Method = DefaultHeaderBytes.getD 0 [] then
      let c := p.handlePreflight c
      let c := if !p.allowAllOrigins then
        c.Header (bytes "Access-Control-Allow-Origin") origin else c
      c.AbortWithStatus StatusNoContent
    else
      let c := p.handleNormal c
      if !p.allowAllOrigins then c.Header (bytes "Access-Control-Allow-Origin") origin else c

/-! ## `proxy_cors.go` -/

/-- `cors.handleProxyNormal`: the response after the call. -/
def cors.handleProxyNormal (p : cors) (resp : Response) : Response :=
  { resp with Header := headerLoop p.normalHeaders resp.Header }

/-- `cors.applyProxyCors`: the response after the call. -/
def cors.applyProxyCors (p : cors) (req : Request) (resp : Response) : Response :=
  let origin := req.Origin
  if origin.length = 0 then resp
  else
    let host := req.Host
    let o := str2bytes origin
    if HasPrefix o (DefaultSchemasBytes.getD 0 [])
        && decide (compareByteSlices o (DefaultSchemasBytes.getD 0 []) host = 0) then resp
    else if HasPrefix o (DefaultSchemasBytes.getD 1 [])
        && decide (compareByteSlices o (DefaultSchemasBytes.getD 1 []) host = 0) then resp
    else if !p.validateOrigin origin then resp
    else
      let resp := p.handleProxyNormal resp
      if !p.allowAllOrigins then
        { resp with Header := resp.Header.set (bytes "Access-Control-Allow-Origin") origin }
      else resp

/-- The value the header loop writes at `key` for the map `entries`, if any:
the value of the last entry with that key among those with a non-empty value. -/
def written (entries : HeaderMap) (key : GoString) : Option GoString :=
  HeaderMap.lookup (entries.filter (fun kv => decide (kv.2.length > 0))) key

/-- The request is same-origin: its `Origin` is `"http://"` or `"https://"`
followed by the declared host. -/
def sameOrigin (req : Request) : Prop :=
  req.Origin = bytes "http://" ++ req.Host ∨ req.Origin = bytes "https://" ++ req.Host

instance (req : Request) : Decidable (sameOrigin req) := by
  unfold sameOrigin
  exact inferInstance

/-- The policy `newCors` builds once validation and rule parsing succeed. -/
def compiled (config : Config) (wRules : List WildcardRule) : cors :=
  let all := config.AllowAllOrigins || decide (star ∈ config.AllowOrigins)
  { allowOriginFunc := config.AllowOriginFunc
    allowAllOrigins := all
    allowCredentials := config.AllowCredentials
    allowOrigins := normalize config.AllowOrigins
    normalHeaders := generateNormalHeaders { config with AllowAllOrigins := all }
    preflightHeaders := generatePreflightHeaders { config with AllowAllOrigins := all }
    wildcardOrigins := wRules }

/-- The rule the loop body of `parseWildcardRules` appends for a pattern `o`
that contains a `*`, with `i` the position of its first `*`. -/
def ruleOf (o : GoString) : WildcardRule :=
  let i := o.indexOf starByte
  if i = 0 then (star, o.drop 1)
  else if i + 1 = o.length then (o.take (i - 1), star)
  else (o.take i, o.drop (i + 1))

/-! ## The specification's reading of `normalize` and of a decimal rendering -/

/-- The values of a list in order of first occurrence, later duplicates removed. -/
def keepFirst : List GoString → List GoString
  | [] => []
  | x :: xs => x :: (keepFirst xs).filter (fun y => decide (y ≠ x))

/-- The number a string of decimal digits stands for. -/
def decimalValue (s : GoString) : Nat := s.foldl (fun acc b => 10 * acc + (b - 48)) 0

/-! ## The specification's reading of a wildcard rule -/

/-- A rule `(pre, suf)` matches `origin`, in the words of the specification:
`pre` is `"*"` and `origin` ends with `suf`, or `suf` is `"*"` and `origin`
starts with `pre`, or `origin` starts with `pre` and ends with `suf`. -/
def ruleMatches (origin : GoString) (w : WildcardRule) : Bool :=
  (decide (w.1 = star) && HasSuffix origin w.2)
    || (decide (w.2 = star) && HasPrefix origin w.1)
    || (HasPrefix origin w.1 && HasSuffix origin w.2)

/-- The answer of the custom predicate when one is configured, `false` when
none is. -/
def predicateResult (f : Option (GoString → Bool)) (origin : GoString) : Bool :=
  match f with
  | some g => g origin
  | none => false

/-! ## Test configurations -/

/-- `DefaultConfig`: twelve hours are `43200000000000` nanoseconds. -/
def DefaultConfig : Config :=
  { AllowMethods := [bytes "GET", bytes "POST", bytes "PUT", bytes "PATCH", bytes "DELETE",
      bytes "HEAD", bytes "OPTIONS"]
    AllowHeaders := [bytes "Origin", bytes "Content-Length", bytes "Content-Type"]
    AllowCredentials := false
    MaxAge := 43200000000000 }

/-- The predicate `origin == "http://abcdefghijklmnopqrstuvwxyz"` of
`TestValidateOrigin`. -/
def alphabetFunc (origin : GoString) : Bool :=
  decide (origin = bytes "http://abcdefghijklmnopqrstuvwxyz")

/-- The second configuration of `TestValidateOrigin`: two literal origins and a
predicate. -/
def funcConfig : Config :=
  { AllowOrigins := [bytes "https://google.com", bytes "https://github.com"]
    AllowOriginFunc := some alphabetFunc
    AllowBrowserExtensions := true }

/-- The second configuration of `TestWildcard`: two literal origins. -/
def literalConfig : Config :=
  { AllowOrigins := [bytes "https://github.com", bytes "https://facebook.com"]
    AllowMethods := [bytes "GET"] }

/-- A literal origin written with an upper-case letter. -/
def mixedCaseConfig : Config := { AllowOrigins := [bytes "http://Google.com"] }

/-- The configuration `Config{AllowOrigins: []string{"*"}}` of `TestValidateOrigin`. -/
def starConfig : Config := { AllowOrigins := [bytes "*"] }

/-- The entry `"*"` next to a pattern with two stars, wildcards enabled. -/
def starAndTwoStarsConfig : Config :=
  { AllowOrigins := [bytes "*", bytes "http://*.*"], AllowWildcard := true }

/-- The configuration of `TestConfig_parseWildcardRules`. -/
def twoStarsConfig : Config :=
  { DefaultConfig with AllowWildcard := true, AllowOrigins := [bytes "www.*.*"] }

/-- The pattern of `TestConfig_parseWildcardRules` with wildcards left disabled. -/
def twoStarsNoWildcardConfig : Config := { AllowOrigins := [bytes "www.*.*"] }

/-- The predicate `origin == "http://github.com"` of `TestPassesAllowOrigins`. -/
def githubFunc (origin : GoString) : Bool := decide (origin = bytes "http://github.com")

/-- The configuration of `TestPassesAllowOrigins`; twelve hours are
`43200000000000` nanoseconds. -/
def passesConfig : Config :=
  { AllowOrigins := [bytes "http://google.com"]
    AllowMethods := [bytes " GeT ", bytes "get", bytes "post", bytes "PUT  ", bytes "Head",
      bytes "POST"]
    AllowHeaders := [bytes "Content-type", bytes "timeStamp "]
    ExposeHeaders := [bytes "Data", bytes "x-User"]
    AllowCredentials := false
    MaxAge := 43200000000000
    AllowOriginFunc := some githubFunc }

/-- The policy compiled from `passesConfig`. -/
def passesPolicy : cors := compiled passesConfig []

/-- A request context as the test router hands it to the middleware: the given
method and `Origin`, the host `facebook.com`, and an untouched response. -/
def testContext (method origin : GoString) : RequestContext :=
  { Request := { Origin := origin, Host := bytes "facebook.com", Method := method }
    Response := { Header := [], StatusCode := 200, Body := [] }
    aborted := false }

/-- The configuration of `TestPassesAllowAllOrigins`; ten hours are
`36000000000000` nanoseconds. -/
def allowAllConfig : Config :=
  { AllowAllOrigins := true
    AllowMethods := [bytes " Patch ", bytes "get", bytes "post", bytes "POST"]
    AllowHeaders := [bytes "Content-type", bytes "  testheader "]
    ExposeHeaders := [bytes "Data2", bytes "x-User2"]
    AllowCredentials := false
    MaxAge := 36000000000000 }

/-- The request of a context with an empty `Origin` header. -/
def noOriginRequest : Request :=
  { Origin := [], Host := bytes "facebook.com", Method := bytes "GET" }

/-- An untouched response, as the proxy path receives it from upstream. -/
def upstreamResponse : Response := { Header := [], StatusCode := 200, Body := bytes "get" }

/-- The first configuration of `TestWildcard`. -/
def wildcardConfig : Config :=
  { AllowOrigins := [bytes "https://*.github.com", bytes "https://api.*", bytes "http://*",
      bytes "https://facebook.com", bytes "*.golang.org"]
    AllowMethods := [bytes "GET"]
    AllowWildcard := true }

/-- A compiled policy whose only content is the wildcard rules `rules`. -/
def wildcardPolicy (rules : List WildcardRule) : cors :=
  { allowAllOrigins := false
    allowCredentials := false
    allowOriginFunc := none
    allowOrigins := []
    normalHeaders := []
    preflightHeaders := []
    wildcardOrigins := rules }

/-- A configuration with wildcards enabled and the single pattern `pattern`. -/
def patternConfig (pattern : GoString) : Config :=
  { AllowOrigins := [pattern], AllowWildcard := true }

/-! ## Lemmas on the loops -/

theorem allowAllLoop_eq (l : List GoString) (config : Config) :
    allowAllLoop l config
      = { config with AllowAllOrigins := config.AllowAllOrigins || decide (star ∈ l) } := by
  induction l generalizing config with
  | nil => simp [allowAllLoop]
  | cons origin rest ih =>
    unfold allowAllLoop
    by_cases h : origin = star
    · simp [h, ih]
    · have h2 : ¬ star = origin := fun e => h e.symm
      simp [h, h2, ih]

theorem originLoop_eq (origin : GoString) (l : List GoString) :
    originLoop origin l = decide (origin ∈ l) := by
  induction l with
  | nil => simp [originLoop]
  | cons value rest ih =>
    unfold originLoop
    by_cases h : value = origin
    · simp [h]
    · have h2 : ¬ origin = value := fun e => h e.symm
      simp [h, h2, ih]

theorem wildcardLoop_eq (origin : GoString) (l : List WildcardRule) :
    wildcardLoop origin l = l.any (ruleMatches origin) := by
  induction l with
  | nil => simp [wildcardLoop]
  | cons w rest ih =>
    unfold wildcardLoop
    simp only [List.any_cons, ruleMatches, ih]
    by_cases h1 : w.1 = star <;> by_cases h2 : w.2 = star <;>
      cases HasSuffix origin w.2 <;> cases HasPrefix origin w.1 <;> simp [h1, h2]

theorem schemaLoop_eq (origin : GoString) (l : List GoString) :
    schemaLoop origin l = l.any (fun schema => HasPrefix origin schema) := by
  induction l with
  | nil => simp [schemaLoop]
  | cons schema rest ih =>
    unfold schemaLoop
    cases h : HasPrefix origin schema <;> simp [h, ih]

theorem Contains_iff (s : GoString) (b : Nat) : Contains s b = true ↔ b ∈ s := by
  unfold Contains Index
  by_cases h : b ∈ s
  · simp [h]
  · simp [h]

theorem validateLoop_error_iff (c : Config) (l : List GoString) :
    (∃ e, c.validateLoop l = .error e)
      ↔ ∃ o ∈ l, starByte ∉ o ∧ ∀ schema ∈ c.getAllowedSchemas, HasPrefix o schema = false := by
  induction l with
  | nil => simp [Config.validateLoop]
  | cons origin rest ih =>
    unfold Config.validateLoop
    by_cases h : (!Contains origin starByte && !c.validateAllowedSchemas origin) = true
    · rw [if_pos h]
      simp only [Bool.and_eq_true, Bool.not_eq_true', Config.validateAllowedSchemas,
        schemaLoop_eq, List.any_eq_false] at h
      constructor
      · intro _
        refine ⟨origin, List.mem_cons_self _ _, ?_, ?_⟩
        · intro hm
          have := (Contains_iff origin starByte).mpr hm
          simp [h.1] at this
        · intro schema hs
          simpa using h.2 schema hs
      · intro _
        exact ⟨_, rfl⟩
    · rw [if_neg h, ih]
      simp only [Bool.and_eq_true, Bool.not_eq_true', Config.validateAllowedSchemas,
        schemaLoop_eq, List.any_eq_false, not_and] at h
      constructor
      · rintro ⟨o, ho, h1, h2⟩
        exact ⟨o, List.mem_cons_of_mem _ ho, h1, h2⟩
      · rintro ⟨o, ho, h1, h2⟩
        rcases List.mem_cons.mp ho with rfl | ho
        · exfalso
          have hc : Contains o starByte = false := by
            cases hC : Contains o starByte
            · rfl
            · exact absurd ((Contains_iff o starByte).mp hC) h1
          apply h hc
          intro schema hs
          simpa using h2 schema hs
        · exact ⟨o, ho, h1, h2⟩

theorem Validate_error_iff (c : Config) :
    (∃ e, c.Validate = .error e)
      ↔ ((c.AllowAllOrigins = true ∧ (c.AllowOriginFunc.isSome = true ∨ c.AllowOrigins ≠ []))
        ∨ (c.AllowAllOrigins = false ∧ c.AllowOriginFunc = none ∧ c.AllowOrigins = [])
        ∨ (∃ o ∈ c.AllowOrigins, starByte ∉ o
            ∧ ∀ schema ∈ c.getAllowedSchemas, HasPrefix o schema = false)) := by
  unfold Config.Validate
  by_cases h1 : (c.AllowAllOrigins
      && (c.AllowOriginFunc.isSome || decide (c.AllowOrigins.length > 0))) = true
  · rw [if_pos h1]
    simp only [Bool.and_eq_true, Bool.or_eq_true, decide_eq_true_eq, List.length_pos] at h1
    exact ⟨fun _ => Or.inl h1, fun _ => ⟨_, rfl⟩⟩
  · rw [if_neg h1]
    simp only [Bool.and_eq_true, Bool.or_eq_true, decide_eq_true_eq, List.length_pos] at h1
    by_cases h2 : (!c.AllowAllOrigins && c.AllowOriginFunc.isNone
        && decide (c.AllowOrigins.length = 0)) = true
    · rw [if_pos h2]
      simp only [Bool.and_eq_true, Bool.not_eq_true', Option.isNone_iff_eq_none,
        decide_eq_true_eq, List.length_eq_zero] at h2
      exact ⟨fun _ => Or.inr (Or.inl ⟨h2.1.1, h2.1.2, h2.2⟩), fun _ => ⟨_, rfl⟩⟩
    · rw [if_neg h2, validateLoop_error_iff]
      simp only [Bool.and_eq_true, Bool.not_eq_true', Option.isNone_iff_eq_none,
        decide_eq_true_eq, List.length_eq_zero] at h2
      constructor
      · intro h
        exact Or.inr (Or.inr h)
      · rintro (h | h | h)
        · exact absurd h h1
        · exact absurd ⟨⟨h.1, h.2.1⟩, h.2.2⟩ h2
        · exact h

theorem newCors_eq (config : Config) :
    newCors config
      = match config.Validate with
        | .error err => .error err
        | .ok _ =>
          match config.parseWildcardRules with
          | .error e => .error e
          | .ok wRules => .ok (compiled config wRules) := by
  unfold newCors
  simp only [allowAllLoop_eq, Config.parseWildcardRules, compiled]

theorem Contains_false_iff (s : GoString) (b : Nat) : Contains s b = false ↔ b ∉ s := by
  rw [← Contains_iff]
  cases Contains s b <;> simp

theorem Index_of_mem {s : GoString} {b : Nat} (h : b ∈ s) :
    Index s b = (s.indexOf b : Int) ∧ s.indexOf b < s.length := by
  unfold Index
  exact ⟨by simp [h], List.indexOf_lt_length.mpr h⟩

/-- One iteration of the loop of `parseWildcardRules`: no slice is out of
range, and the rule appended is `ruleOf o`. -/
theorem parseWildcardLoop_cons (o : GoString) (rest : List GoString) (wRules : List WildcardRule) :
    parseWildcardLoop (o :: rest) wRules
      = if starByte ∉ o then parseWildcardLoop rest wRules
        else if Count o starByte > 1 then .error (bytes "only one * is allowed")
        else parseWildcardLoop rest (wRules ++ [ruleOf o]) := by
  rw [parseWildcardLoop]
  by_cases hm : starByte ∈ o
  · have hc : Contains o starByte = true := (Contains_iff _ _).mpr hm
    obtain ⟨hi, hlt⟩ := Index_of_mem hm
    simp only [hc, Bool.not_true, Bool.false_eq_true, if_false, hm, not_true_eq_false]
    by_cases hcount : Count o starByte > 1
    · simp [hcount]
    · simp only [hcount, if_false, hi]
      by_cases h0 : o.indexOf starByte = 0
      · have h1 : (1 : Int) ≤ (o.length : Int) := by omega
        simp [h0, sliceFrom, h1, ruleOf]
      · have hz : ¬ ((o.indexOf starByte : Int) = 0) := by omega
        simp only [hz, if_false]
        by_cases hl : o.indexOf starByte + 1 = o.length
        · have hl2 : ((o.indexOf starByte : Int) = (o.length : Int) - 1) := by omega
          have hb : (0 : Int) ≤ (o.indexOf starByte : Int) - 1
              ∧ (o.indexOf starByte : Int) - 1 ≤ (o.length : Int) := by omega
          have ht : ((o.indexOf starByte : Int) - 1).toNat = o.indexOf starByte - 1 := by omega
          simp only [hl2, if_true]
          rw [← hl2]
          simp [sliceTo, hb, ht, ruleOf, h0, hl]
        · have hl2 : ¬ ((o.indexOf starByte : Int) = (o.length : Int) - 1) := by omega
          have hb : (o.indexOf starByte : Int) ≤ (o.length : Int) := by omega
          have hb2 : (0 : Int) ≤ (o.indexOf starByte : Int) + 1
              ∧ (o.indexOf starByte : Int) + 1 ≤ (o.length : Int) := by omega
          have ht : ((o.indexOf starByte : Int) + 1).toNat = o.indexOf starByte + 1 := by omega
          simp [hl2, sliceTo, sliceFrom, hb, hb2, ht, ruleOf, h0, hl]
  · have hc : Contains o starByte = false := (Contains_false_iff _ _).mpr hm
    simp [hc, hm]

/-- Patterns with at most one `*` each: the loop succeeds, with one rule per
pattern that contains a `*`, in order. -/
theorem parseWildcardLoop_ok (l : List GoString) (wRules : List WildcardRule)
    (h : ∀ o ∈ l, Count o starByte ≤ 1) :
    parseWildcardLoop l wRules
      = .ok (wRules ++ (l.filter (fun o => decide (starByte ∈ o))).map ruleOf) := by
  induction l generalizing wRules with
  | nil => simp [parseWildcardLoop]
  | cons o rest ih =>
    have hrest : ∀ x ∈ rest, Count x starByte ≤ 1 := fun x hx => h x (List.mem_cons_of_mem _ hx)
    have ho : ¬ Count o starByte > 1 := by
      have := h o (List.mem_cons_self _ _)
      omega
    rw [parseWildcardLoop_cons]
    by_cases hm : starByte ∈ o
    · simp [hm, ho, ih _ hrest]
    · simp [hm, ih _ hrest]

/-- A pattern with more than one `*`: the loop panics. -/
theorem parseWildcardLoop_error (l : List GoString) (wRules : List WildcardRule)
    (h : ∃ o ∈ l, Count o starByte > 1) :
    ∃ e, parseWildcardLoop l wRules = .error e := by
  induction l generalizing wRules with
  | nil => simp at h
  | cons o rest ih =>
    rw [parseWildcardLoop_cons]
    by_cases hc : Count o starByte > 1
    · have hm : starByte ∈ o := by
        unfold Count at hc
        exact List.count_pos_iff.mp (by omega)
      exact ⟨bytes "only one * is allowed", by simp [hm, hc]⟩
    · have hr : ∃ x ∈ rest, Count x starByte > 1 := by
        obtain ⟨x, hx, hx2⟩ := h
        rcases List.mem_cons.mp hx with rfl | hx
        · exact absurd hx2 hc
        · exact ⟨x, hx, hx2⟩
      by_cases hm : starByte ∈ o
      · simp only [hm, not_true_eq_false, if_false, hc]
        exact ih _ hr
      · simp only [hm, not_false_eq_true, if_true]
        exact ih _ hr

theorem mem_normalizeLoop (x : GoString) (l acc : List GoString) :
    x ∈ normalizeLoop l acc ↔ x ∈ acc ∨ ∃ s ∈ l, x = ToLower (TrimSpace s) := by
  induction l generalizing acc with
  | nil => simp [normalizeLoop]
  | cons value rest ih =>
    unfold normalizeLoop
    by_cases h : ToLower (TrimSpace value) ∈ acc
    · simp only [h, if_true, ih, List.mem_cons, exists_eq_or_imp]
      constructor
      · rintro (h1 | h1)
        · exact Or.inl h1
        · exact Or.inr (Or.inr h1)
      · rintro (h1 | h1 | h1)
        · exact Or.inl h1
        · exact Or.inl (h1 ▸ h)
        · exact Or.inr h1
    · simp only [h, if_false, ih, List.mem_append, List.mem_singleton, List.mem_cons,
        exists_eq_or_imp]
      tauto

theorem mem_normalize (x : GoString) (l : List GoString) :
    x ∈ normalize l ↔ ∃ s ∈ l, x = ToLower (TrimSpace s) := by
  simp [normalize, mem_normalizeLoop]

theorem parseWildcardRules_ok (config : Config)
    (h : config.AllowWildcard = true → ∀ s ∈ config.AllowOrigins, Count s starByte ≤ 1) :
    config.parseWildcardRules
      = .ok (if config.AllowWildcard then
          (config.AllowOrigins.filter (fun o => decide (starByte ∈ o))).map ruleOf else []) := by
  unfold Config.parseWildcardRules
  cases hw : config.AllowWildcard
  · simp
  · simp [parseWildcardLoop_ok _ _ (h hw)]

theorem HasPrefix_iff (s pre : GoString) : HasPrefix s pre = true ↔ pre <+: s := by
  unfold HasPrefix
  rw [List.prefix_iff_eq_take]
  simp only [Bool.and_eq_true, decide_eq_true_eq]
  constructor
  · rintro ⟨_, h⟩
    exact h.symm
  · intro h
    refine ⟨?_, h.symm⟩
    have := congrArg List.length h
    simp only [List.length_take] at this
    omega

theorem HasSuffix_iff (s suf : GoString) : HasSuffix s suf = true ↔ suf <:+ s := by
  unfold HasSuffix
  simp only [Bool.and_eq_true, decide_eq_true_eq]
  constructor
  · rintro ⟨_, h⟩
    have := List.take_append_drop (s.length - suf.length) s
    rw [h] at this
    exact ⟨_, this⟩
  · intro h
    exact ⟨h.length_le, (List.suffix_iff_eq_drop.mp h).symm⟩

/-- The position of the star and the number of stars in a pattern with one
star. -/
theorem one_star_pattern (pre suf : GoString) (hpre : starByte ∉ pre) (hsuf : starByte ∉ suf) :
    (pre ++ star ++ suf).indexOf starByte = pre.length
      ∧ Count (pre ++ star ++ suf) starByte = 1
      ∧ starByte ∈ pre ++ star ++ suf := by
  refine ⟨?_, ?_, ?_⟩
  · simp [star, List.indexOf_append_of_not_mem hpre]
  · simp [Count, star, List.count_eq_zero_of_not_mem hpre, List.count_eq_zero_of_not_mem hsuf]
  · simp [star]

/-- The rule compiled from a pattern with one star. -/
theorem ruleOf_one_star (pre suf : GoString) (hpre : starByte ∉ pre) (hsuf : starByte ∉ suf) :
    ruleOf (pre ++ star ++ suf)
      = if pre = [] then (star, suf)
        else if suf = [] then (pre.dropLast, star) else (pre, suf) := by
  obtain ⟨hi, _, _⟩ := one_star_pattern pre suf hpre hsuf
  unfold ruleOf
  simp only [hi]
  by_cases h1 : pre = []
  · subst h1
    simp [star]
  · have hl : pre.length ≠ 0 := by simpa using h1
    simp only [hl, h1, if_false]
    by_cases h2 : suf = []
    · subst h2
      simp [star, List.dropLast_eq_take, List.take_append_eq_append_take]
    · have hl2 : ¬ (pre.length + 1 = (pre ++ star ++ suf).length) := by
        have h3 : suf.length ≠ 0 := by simpa using h2
        have h4 : (pre ++ star ++ suf).length = pre.length + 1 + suf.length := by
          simp [star]
          omega
        omega
      simp [hl2, h2, star, List.take_append_eq_append_take, List.drop_append_eq_append_drop]

/-- The rules compiled from a single pattern with one star, wildcards enabled. -/
theorem parseWildcardRules_one_star (config : Config) (pre suf : GoString)
    (hw : config.AllowWildcard = true) (ho : config.AllowOrigins = [pre ++ star ++ suf])
    (hpre : starByte ∉ pre) (hsuf : starByte ∉ suf) :
    config.parseWildcardRules = .ok [ruleOf (pre ++ star ++ suf)] := by
  obtain ⟨_, hc, hm⟩ := one_star_pattern pre suf hpre hsuf
  rw [parseWildcardRules_ok config
    (by intro _ s hs; rw [ho, List.mem_singleton] at hs; rw [hs, hc])]
  rw [ho, hw]
  simp only [if_true, List.filter_cons, hm, decide_True, List.filter_nil, List.map]

theorem star_ne_of_not_mem (s : GoString) (h : starByte ∉ s) : s ≠ star := by
  intro e
  subst e
  simp [star] at h

/-! ## Lemmas on header maps and on the request guards -/

theorem lookup_cons (k v : GoString) (rest : HeaderMap) (key : GoString) :
    HeaderMap.lookup ((k, v) :: rest) key
      = (HeaderMap.lookup rest key).or (if k = key then some v else none) := by
  rw [HeaderMap.lookup]
  cases HeaderMap.lookup rest key <;> simp

theorem lookup_append (a b : HeaderMap) (key : GoString) :
    HeaderMap.lookup (a ++ b) key = (HeaderMap.lookup b key).or (HeaderMap.lookup a key) := by
  induction a with
  | nil => simp [HeaderMap.lookup, Option.or_none]
  | cons kv rest ih =>
    obtain ⟨k, v⟩ := kv
    rw [List.cons_append, lookup_cons, lookup_cons, ih]
    cases HeaderMap.lookup b key <;> simp

theorem lookup_filter_ne (h : HeaderMap) (k key : GoString) :
    HeaderMap.lookup (h.filter (fun kv => decide (kv.1 ≠ k))) key
      = if k = key then none else HeaderMap.lookup h key := by
  induction h with
  | nil => simp [HeaderMap.lookup]
  | cons kv rest ih =>
    obtain ⟨k0, v0⟩ := kv
    by_cases h0 : k0 = k
    · subst h0
      simp only [List.filter_cons, ne_eq, not_true_eq_false, decide_False, Bool.false_eq_true,
        if_false, ih, lookup_cons]
      by_cases h1 : k0 = key
      · simp [h1]
      · simp [h1, Option.or_none]
    · simp only [List.filter_cons, ne_eq, h0, not_false_eq_true, decide_True, if_true,
        lookup_cons, ih]
      by_cases h1 : k = key
      · subst h1
        simp [h0]
      · simp [h1]

theorem lookup_set (h : HeaderMap) (k v key : GoString) :
    HeaderMap.lookup (h.set k v) key = if k = key then some v else HeaderMap.lookup h key := by
  unfold HeaderMap.set
  rw [lookup_append, lookup_filter_ne, lookup_cons]
  by_cases h1 : k = key <;> simp [h1, HeaderMap.lookup]

theorem lookup_del (h : HeaderMap) (k key : GoString) :
    HeaderMap.lookup (h.del k) key = if k = key then none else HeaderMap.lookup h key := by
  unfold HeaderMap.del
  exact lookup_filter_ne h k key

/-- What the header loop leaves at `key`: the value it writes there, or else
the value the response already had. -/
theorem lookup_headerLoop (entries headers : HeaderMap) (key : GoString) :
    HeaderMap.lookup (headerLoop entries headers) key
      = (written entries key).or (HeaderMap.lookup headers key) := by
  induction entries generalizing headers with
  | nil => simp [headerLoop, written, HeaderMap.lookup]
  | cons kv rest ih =>
    obtain ⟨k, v⟩ := kv
    unfold headerLoop
    by_cases hv : v.length > 0
    · simp only [hv, if_true, ih, lookup_set, written, List.filter_cons, decide_True,
        lookup_cons]
      cases HeaderMap.lookup (List.filter (fun kv => decide (kv.2.length > 0)) rest) key <;>
        by_cases h1 : k = key <;> simp [h1]
    · simp only [hv, if_false, ih, written, List.filter_cons, decide_False,
        Bool.false_eq_true]

theorem written_set (h : HeaderMap) (k v : GoString) (hv : v ≠ []) :
    written (h.set k v) k = some v := by
  have hl : v.length > 0 := List.length_pos.mpr hv
  unfold written HeaderMap.set
  rw [List.filter_append, lookup_append]
  simp [hl, HeaderMap.lookup]

/-- The same-origin test of `applyCors` for one scheme. -/
theorem sameOrigin_guard (o pre host : GoString) :
    (HasPrefix o pre && decide (compareByteSlices o pre host = 0)) = decide (o = pre ++ host) := by
  unfold compareByteSlices
  by_cases h : o = pre ++ host
  · have hp : HasPrefix o pre = true := (HasPrefix_iff o pre).mpr ⟨host, h.symm⟩
    simp [h, hp]
    simpa [h] using hp
  · simp [h]

/-- The branches of `applyCors`. -/
theorem applyCors_eq (p : cors) (c : RequestContext) :
    p.applyCors c
      = if c.Request.Origin = [] then c
        else if sameOrigin c.Request then c
        else if p.validateOrigin c.Request.Origin = false then c.AbortWithStatus 403
        else if c.Request.Method = bytes "OPTIONS" then
          ((if p.allowAllOrigins = false then
              (p.handlePreflight c).SetHeader (bytes "Access-Control-Allow-Origin")
                c.Request.Origin
            else p.handlePreflight c)).AbortWithStatus 204
        else if p.allowAllOrigins = false then
          (p.handleNormal c).SetHeader (bytes "Access-Control-Allow-Origin") c.Request.Origin
        else p.handleNormal c := by
  unfold cors.applyCors
  by_cases h0 : c.Request.Origin = []
  · simp [h0]
  · have hl : ¬ c.Request.Origin.length = 0 := by simpa using h0
    have e0 : DefaultSchemasBytes.getD 0 [] = bytes "http://" := by decide
    have e1 : DefaultSchemasBytes.getD 1 [] = bytes "https://" := by decide
    have e2 : DefaultHeaderBytes.getD 0 [] = bytes "OPTIONS" := by decide
    simp only [hl, h0, if_false, str2bytes, sameOrigin_guard, e0, e1, e2, StatusForbidden,
      StatusNoContent, sameOrigin, RequestContext.Header]
    by_cases h1 : c.Request.Origin = bytes "http://" ++ c.Request.Host
    · simp [h1]
    · by_cases h2 : c.Request.Origin = bytes "https://" ++ c.Request.Host
      · simp [h2]
      · simp only [h1, h2, decide_False, Bool.false_eq_true, if_false, or_self]
        cases hv : p.validateOrigin c.Request.Origin
        · simp
        · cases ha : p.allowAllOrigins <;> simp [cors.handlePreflight, cors.handleNormal]

/-- The branches of `applyProxyCors`. -/
theorem applyProxyCors_eq (p : cors) (req : Request) (resp : Response) :
    p.applyProxyCors req resp
      = if req.Origin = [] ∨ sameOrigin req ∨ p.validateOrigin req.Origin = false then resp
        else if p.allowAllOrigins = false then
          { p.handleProxyNormal resp with
            Header := (p.handleProxyNormal resp).Header.set
              (bytes "Access-Control-Allow-Origin") req.Origin }
        else p.handleProxyNormal resp := by
  unfold cors.applyProxyCors
  by_cases h0 : req.Origin = []
  · simp [h0]
  · have hl : ¬ req.Origin.length = 0 := by simpa using h0
    have e0 : DefaultSchemasBytes.getD 0 [] = bytes "http://" := by decide
    have e1 : DefaultSchemasBytes.getD 1 [] = bytes "https://" := by decide
    simp only [hl, h0, if_false, str2bytes, sameOrigin_guard, e0, e1, sameOrigin, false_or]
    by_cases h1 : req.Origin = bytes "http://" ++ req.Host
    · simp [h1]
    · by_cases h2 : req.Origin = bytes "https://" ++ req.Host
      · simp [h2]
      · simp only [h1, h2, decide_False, Bool.false_eq_true, if_false, false_or]
        cases hv : p.validateOrigin req.Origin
        · simp
        · cases ha : p.allowAllOrigins <;> simp

/-- The response headers after an accepted request: the entries the loop
writes, then the echoed origin unless the policy is allow-all. -/
theorem lookup_accepted (entries headers : HeaderMap) (all : Bool) (origin key : GoString) :
    HeaderMap.lookup
        (if all = false then
          (headerLoop entries headers).set (bytes "Access-Control-Allow-Origin") origin
          else headerLoop entries headers) key
      = if key = bytes "Access-Control-Allow-Origin" ∧ all = false then some origin
        else (written entries key).or (HeaderMap.lookup headers key) := by
  cases all
  · simp only [if_true, lookup_set, lookup_headerLoop, and_true]
    by_cases h : bytes "Access-Control-Allow-Origin" = key
    · simp [h]
    · have h2 : ¬ key = bytes "Access-Control-Allow-Origin" := fun e => h e.symm
      simp [h, h2]
  · simp [lookup_headerLoop]

theorem generateNormalHeaders_allowAll (c : Config) (h : c.AllowAllOrigins = true) :
    ∃ headers, generateNormalHeaders c
      = HeaderMap.set headers (bytes "Access-Control-Allow-Origin") (bytes "*") := by
  unfold generateNormalHeaders
  simp only [h, if_true]
  exact ⟨_, rfl⟩

theorem generatePreflightHeaders_allowAll (c : Config) (h : c.AllowAllOrigins = true) :
    ∃ headers, generatePreflightHeaders c
      = HeaderMap.set headers (bytes "Access-Control-Allow-Origin") (bytes "*") := by
  unfold generatePreflightHeaders
  simp only [h, if_true]
  exact ⟨_, rfl⟩

/-- In allow-all mode both header maps of a compiled policy write
`Access-Control-Allow-Origin: *`. -/
theorem written_compiled_allowAll (config : Config) (wRules : List WildcardRule)
    (h : (compiled config wRules).allowAllOrigins = true) :
    written (compiled config wRules).normalHeaders (bytes "Access-Control-Allow-Origin")
        = some (bytes "*")
      ∧ written (compiled config wRules).preflightHeaders (bytes "Access-Control-Allow-Origin")
        = some (bytes "*") := by
  have hs : bytes "*" ≠ [] := by decide
  have hall : (config.AllowAllOrigins || decide (star ∈ config.AllowOrigins)) = true := h
  constructor
  · obtain ⟨hd, e⟩ := generateNormalHeaders_allowAll
      { config with
        AllowAllOrigins := (config.AllowAllOrigins || decide (star ∈ config.AllowOrigins)) }
      hall
    show written (generateNormalHeaders _) _ = _
    rw [e]
    exact written_set hd _ _ hs
  · obtain ⟨hd, e⟩ := generatePreflightHeaders_allowAll
      { config with
        AllowAllOrigins := (config.AllowAllOrigins || decide (star ∈ config.AllowOrigins)) }
      hall
    show written (generatePreflightHeaders _) _ = _
    rw [e]
    exact written_set hd _ _ hs

theorem newCors_ok_compiled (config : Config) (p : cors) (h : newCors config = .ok p) :
    ∃ wRules, p = compiled config wRules := by
  rw [newCors_eq] at h
  cases hv : config.Validate with
  | error e => simp [hv] at h
  | ok u =>
    cases hw : config.parseWildcardRules with
    | error e => simp [hv, hw] at h
    | ok wRules =>
      simp only [hv, hw, Except.ok.injEq] at h
      exact ⟨wRules, h.symm⟩

/-! ## Lemmas on `normalize`, on decimal renderings and on the decision -/

theorem mem_keepFirst (x : GoString) (l : List GoString) : x ∈ keepFirst l ↔ x ∈ l := by
  induction l with
  | nil => simp [keepFirst]
  | cons a rest ih =>
    simp only [keepFirst, List.mem_cons, List.mem_filter, ih, decide_eq_true_eq]
    by_cases h : x = a
    · simp [h]
    · simp [h]

theorem keepFirst_nodup (l : List GoString) : (keepFirst l).Nodup := by
  induction l with
  | nil => simp [keepFirst]
  | cons a rest ih =>
    simp only [keepFirst, List.nodup_cons, List.mem_filter, decide_eq_true_eq]
    exact ⟨fun h => h.2 rfl, ih.filter _⟩

theorem keepFirst_length_le (l : List GoString) : (keepFirst l).length ≤ l.length := by
  induction l with
  | nil => simp [keepFirst]
  | cons a rest ih =>
    simp only [keepFirst, List.length_cons]
    have := List.length_filter_le (fun y => decide (y ≠ a)) (keepFirst rest)
    omega

theorem keepFirst_of_nodup (l : List GoString) (h : l.Nodup) : keepFirst l = l := by
  induction l with
  | nil => simp [keepFirst]
  | cons a rest ih =>
    rw [List.nodup_cons] at h
    simp only [keepFirst, ih h.2]
    congr 1
    rw [List.filter_eq_self]
    intro y hy
    simp only [ne_eq, decide_eq_true_eq]
    intro e
    exact h.1 (e ▸ hy)

theorem normalizeLoop_eq (l acc : List GoString) :
    normalizeLoop l acc
      = acc ++ (keepFirst (l.map (fun v => ToLower (TrimSpace v)))).filter
          (fun y => decide (y ∉ acc)) := by
  induction l generalizing acc with
  | nil => simp [normalizeLoop, keepFirst]
  | cons v rest ih =>
    unfold normalizeLoop
    simp only [List.map_cons, keepFirst]
    by_cases h : ToLower (TrimSpace v) ∈ acc
    · simp only [h, if_true, ih, List.filter_cons, not_true_eq_false, decide_False,
        Bool.false_eq_true, if_false, List.filter_filter]
      congr 1
      apply List.filter_congr
      intro y _
      by_cases hy : y ∈ acc
      · simp [hy]
      · have : y ≠ ToLower (TrimSpace v) := fun e => hy (e ▸ h)
        simp [hy, this]
    · simp only [h, if_false, ih, List.filter_cons, not_false_eq_true, decide_True, if_true,
        List.filter_filter, List.append_assoc, List.singleton_append]
      congr 2
      apply List.filter_congr
      intro y _
      by_cases hy : y ∈ acc <;> by_cases hx : y = ToLower (TrimSpace v) <;> simp [hy, hx]

theorem normalize_eq (vs : List GoString) :
    normalize vs = keepFirst (vs.map (fun v => ToLower (TrimSpace v))) := by
  simp [normalize, normalizeLoop_eq]

theorem TrimSpace_eq (s : GoString) :
    TrimSpace s = (s.dropWhile isSpace).rdropWhile isSpace := rfl

theorem head_not_of_prefix (p : Nat → Bool) (r a : GoString) (hp : r <+: a)
    (ha : ∀ hl : 0 < a.length, ¬ p (a.get ⟨0, hl⟩) = true) :
    ∀ hl : 0 < r.length, ¬ p (r.get ⟨0, hl⟩) = true := by
  intro hl
  obtain ⟨t, ht⟩ := hp
  subst ht
  cases r with
  | nil => simp at hl
  | cons x xs => simpa using ha (by simp)

theorem dropWhile_rdropWhile_dropWhile (s : GoString) :
    ((s.dropWhile isSpace).rdropWhile isSpace).dropWhile isSpace
      = (s.dropWhile isSpace).rdropWhile isSpace := by
  rw [List.dropWhile_eq_self_iff]
  exact head_not_of_prefix isSpace _ _ (List.rdropWhile_prefix isSpace _)
    (fun hl => List.dropWhile_get_zero_not isSpace s hl)

theorem TrimSpace_idempotent (s : GoString) : TrimSpace (TrimSpace s) = TrimSpace s := by
  rw [TrimSpace_eq (TrimSpace s), TrimSpace_eq s, dropWhile_rdropWhile_dropWhile,
    List.rdropWhile_idempotent]

theorem isSpace_lower (b : Nat) :
    isSpace (if 65 ≤ b ∧ b ≤ 90 then b + 32 else b) = isSpace b := by
  unfold isSpace
  by_cases h : 65 ≤ b ∧ b ≤ 90
  · have h1 : b ≠ 9 := by omega
    have h2 : b ≠ 10 := by omega
    have h3 : b ≠ 11 := by omega
    have h4 : b ≠ 12 := by omega
    have h5 : b ≠ 13 := by omega
    have h6 : b ≠ 32 := by omega
    have g1 : b + 32 ≠ 9 := by omega
    have g2 : b + 32 ≠ 10 := by omega
    have g3 : b + 32 ≠ 11 := by omega
    have g4 : b + 32 ≠ 12 := by omega
    have g5 : b + 32 ≠ 13 := by omega
    have g6 : b ≠ 0 := by omega
    simp [h, h1, h2, h3, h4, h5, h6, g1, g2, g3, g4, g5, g6]
  · simp [h]

theorem dropWhile_ToLower (s : GoString) :
    (ToLower s).dropWhile isSpace = ToLower (s.dropWhile isSpace) := by
  unfold ToLower
  rw [List.dropWhile_map]
  congr 1
  congr 1
  funext b
  exact isSpace_lower b

theorem TrimSpace_ToLower (s : GoString) : TrimSpace (ToLower s) = ToLower (TrimSpace s) := by
  unfold TrimSpace
  rw [dropWhile_ToLower]
  have h : ∀ t : GoString, (ToLower t).reverse = ToLower t.reverse := by
    intro t
    simp [ToLower, List.map_reverse]
  rw [h, dropWhile_ToLower, h]

theorem ToLower_idempotent (s : GoString) : ToLower (ToLower s) = ToLower s := by
  unfold ToLower
  rw [List.map_map]
  apply List.map_congr_left
  intro b _
  simp only [Function.comp]
  split_ifs <;> omega

/-- Trimming and lower-casing a value twice is the same as doing it once. -/
theorem fold_idempotent (s : GoString) :
    ToLower (TrimSpace (ToLower (TrimSpace s))) = ToLower (TrimSpace s) := by
  rw [TrimSpace_ToLower, ToLower_idempotent, TrimSpace_idempotent]

theorem ToUpper_ToLower (s : GoString) : ToUpper (ToLower s) = ToUpper s := by
  unfold ToUpper ToLower
  rw [List.map_map]
  apply List.map_congr_left
  intro b _
  simp only [Function.comp]
  split_ifs <;> omega

theorem digitChar_toNat (d : Nat) (h : d < 10) : (Nat.digitChar d).toNat - 48 = d := by
  interval_cases d <;> rfl

theorem decimalValue_toDigitsCore (fuel n : Nat) (ds : List Char) (h : n < fuel) :
    List.foldl (fun acc b => 10 * acc + (b - 48)) 0
        ((Nat.toDigitsCore 10 fuel n ds).map Char.toNat)
      = List.foldl (fun acc b => 10 * acc + (b - 48)) n (ds.map Char.toNat) := by
  induction fuel generalizing n ds with
  | zero => omega
  | succ fuel ih =>
    unfold Nat.toDigitsCore
    simp only []
    have hd := digitChar_toNat (n % 10) (Nat.mod_lt _ (by decide))
    by_cases h0 : n / 10 = 0
    · have hn : n % 10 = n := by omega
      rw [hn] at hd
      simp only [h0, if_true, hn, List.map_cons, List.foldl_cons]
      rw [Nat.mul_zero, Nat.zero_add, hd]
    · have hlt : n / 10 < fuel := by omega
      simp only [h0, if_false]
      rw [ih (n / 10) _ hlt]
      simp only [List.map_cons, List.foldl_cons, hd]
      congr 1
      omega

/-- The rendering `FormatInt n` reads back as `n`. -/
theorem decimalValue_FormatInt (n : Nat) : decimalValue (FormatInt n) = n := by
  unfold decimalValue FormatInt Nat.toDigits
  rw [decimalValue_toDigitsCore _ _ _ (Nat.lt_succ_self n)]
  simp

theorem validateOrigin_iff (p : cors) (o : GoString) :
    p.validateOrigin o = true
      ↔ p.allowAllOrigins = true ∨ o ∈ p.allowOrigins
        ∨ (∃ w ∈ p.wildcardOrigins, ruleMatches o w = true)
        ∨ predicateResult p.allowOriginFunc o = true := by
  unfold cors.validateOrigin cors.validateWildcardOrigin
  rw [originLoop_eq, wildcardLoop_eq]
  cases h1 : p.allowAllOrigins
  · by_cases h2 : o ∈ p.allowOrigins
    · simp [h2]
    · cases h3 : p.wildcardOrigins.any (ruleMatches o)
      · have h4 : ¬ ∃ w ∈ p.wildcardOrigins, ruleMatches o w = true := by
          intro ⟨w, hw, hm⟩
          have := List.any_eq_true.mpr ⟨w, hw, hm⟩
          simp [h3] at this
        cases hf : p.allowOriginFunc <;> simp [h2, h4, predicateResult]
      · obtain ⟨w, hw, hm⟩ := List.any_eq_true.mp h3
        have hpos : p.wildcardOrigins.length > 0 := List.length_pos_of_mem hw
        have h4 : ∃ w ∈ p.wildcardOrigins, ruleMatches o w = true := ⟨w, hw, hm⟩
        simp [h2, hpos, h4]
  · simp

/-- When `parseWildcardRules` succeeds with wildcards enabled, no pattern has
more than one star. -/
theorem count_le_one_of_parse_ok (config : Config) (wRules : List WildcardRule)
    (h : config.parseWildcardRules = .ok wRules) (hw : config.AllowWildcard = true) :
    ∀ s ∈ config.AllowOrigins, Count s starByte ≤ 1 := by
  intro s hs
  by_contra hc
  have hgt : Count s starByte > 1 := by omega
  obtain ⟨e, he⟩ := parseWildcardLoop_error config.AllowOrigins [] ⟨s, hs, hgt⟩
  unfold Config.parseWildcardRules at h
  simp [hw, he] at h

/-- The slices of `parseWildcardRules` are never out of range: its only panic
is the one for a second star. -/
theorem parseWildcardLoop_error_message (l : List GoString) (wRules : List WildcardRule)
    (e : GoString) (h : parseWildcardLoop l wRules = .error e) :
    e = bytes "only one * is allowed" := by
  induction l generalizing wRules with
  | nil => simp [parseWildcardLoop] at h
  | cons o rest ih =>
    rw [parseWildcardLoop_cons] at h
    by_cases hm : starByte ∈ o
    · by_cases hc : Count o starByte > 1
      · simp only [hm, not_true_eq_false, if_false, hc, if_true, Except.error.injEq] at h
        exact h.symm
      · simp only [hm, not_true_eq_false, if_false, hc] at h
        exact ih _ h
    · simp only [hm, not_false_eq_true, if_true] at h
      exact ih _ h

theorem parseWildcardRules_error_message (config : Config) (e : GoString)
    (h : config.parseWildcardRules = .error e) : e = bytes "only one * is allowed" := by
  unfold Config.parseWildcardRules at h
  cases hw : config.AllowWildcard
  · simp [hw] at h
  · simp only [hw, Bool.not_true, Bool.false_eq_true, if_false] at h
    exact parseWildcardLoop_error_message _ _ _ h

/-! ## Theorems -/

/-- C1: when `AllowAllOrigins` is set and construction succeeds, the compiled
policy accepts every origin string, whatever the other fields hold. -/
theorem validateOrigin_allowAll (config : Config) (p : cors) (x : GoString)
    (hall : config.AllowAllOrigins = true) (hnew : newCors config = .ok p) :
    p.validateOrigin x = true := by
  rw [newCors_eq] at hnew
  cases hv : config.Validate with
  | error e => simp [hv] at hnew
  | ok u =>
    cases hw : config.parseWildcardRules with
    | error e => simp [hv, hw] at hnew
    | ok wRules =>
      simp only [hv, hw, Except.ok.injEq] at hnew
      subst hnew
      simp [cors.validateOrigin, compiled, hall]

/-- Witness of C1: the configuration `Config{AllowAllOrigins: true}` of
`TestValidateOrigin` and the origin `"chrome-extension://random-extension-id"`. -/
theorem validateOrigin_allowAll_witness :
    ∃ p, newCors { AllowAllOrigins := true } = .ok p
      ∧ p.validateOrigin (bytes "chrome-extension://random-extension-id") = true :=
  ⟨_, rfl, validateOrigin_allowAll { AllowAllOrigins := true } _ _ rfl rfl⟩

/-- C3: the decision of a compiled policy is the disjunction of allow-all,
exact membership in the literal origins, a match of some wildcard rule when
there are rules, and the answer of the custom predicate when one is set; when
none of the first three holds it is exactly the predicate's answer (false
without a predicate). -/
theorem validateOrigin_eq (p : cors) (o : GoString) :
    p.validateOrigin o
        = (p.allowAllOrigins || decide (o ∈ p.allowOrigins)
            || (decide (p.wildcardOrigins ≠ []) && p.wildcardOrigins.any (ruleMatches o))
            || predicateResult p.allowOriginFunc o)
      ∧ p.validateOrigin o
        = (if (p.allowAllOrigins || decide (o ∈ p.allowOrigins)
              || (decide (p.wildcardOrigins ≠ []) && p.wildcardOrigins.any (ruleMatches o)))
              = true
            then true else predicateResult p.allowOriginFunc o) := by
  have hlen : decide (p.wildcardOrigins.length > 0) = decide (p.wildcardOrigins ≠ []) := by
    cases p.wildcardOrigins <;> simp
  unfold cors.validateOrigin cors.validateWildcardOrigin
  rw [originLoop_eq, wildcardLoop_eq, hlen]
  cases p.allowAllOrigins <;> cases decide (o ∈ p.allowOrigins) <;>
    cases (decide (p.wildcardOrigins ≠ []) && p.wildcardOrigins.any (ruleMatches o)) <;>
    cases hf : p.allowOriginFunc <;> simp [predicateResult]

/-- C6: `Validate` returns an error exactly when allow-all is combined with a
predicate or a non-empty origin list, or nothing at all is allowed, or some
origin without `*` starts with none of the allowed schemes; the allowed schemes
are the two defaults followed by the extension, websocket and file schemes
that are switched on, in this order. The three configurations of
`TestBadConfig` are rejected. -/
theorem Validate_error_characterisation (c : Config) :
    ((∃ e, c.Validate = .error e)
      ↔ ((c.AllowAllOrigins = true ∧ (c.AllowOriginFunc.isSome = true ∨ c.AllowOrigins ≠ []))
        ∨ (c.AllowAllOrigins = false ∧ c.AllowOriginFunc = none ∧ c.AllowOrigins = [])
        ∨ (∃ o ∈ c.AllowOrigins, starByte ∉ o
            ∧ ∀ schema ∈ c.getAllowedSchemas, HasPrefix o schema = false)))
    ∧ c.getAllowedSchemas
        = [bytes "http://", bytes "https://"]
          ++ (if c.AllowBrowserExtensions = true then
                [bytes "chrome-extension://", bytes "safari-extension://",
                 bytes "moz-extension://", bytes "ms-browser-extension://"] else [])
          ++ (if c.AllowWebSockets = true then [bytes "ws://", bytes "wss://"] else [])
          ++ (if c.AllowFiles = true then [bytes "file://"] else [])
    ∧ (Config.Validate {}).isOk = false
    ∧ (Config.Validate
        { AllowAllOrigins := true, AllowOrigins := [bytes "http://google.com"] }).isOk = false
    ∧ (Config.Validate { AllowOrigins := [bytes "google.com"] }).isOk = false := by
  refine ⟨Validate_error_iff c, ?_, by decide, by decide, by decide⟩
  unfold Config.getAllowedSchemas DefaultSchemas ExtensionSchemas WebSocketSchemas FileSchemas
  cases c.AllowBrowserExtensions <;> cases c.AllowWebSockets <;> cases c.AllowFiles <;> simp

/-- C2 (as amended): with a literal origin list without `*`, no predicate, no
allow-all and no wildcards, construction succeeds and an origin is accepted
exactly when it is an element of the normalized list, that is when it equals
the trimmed, lower-cased form of some configured entry. -/
theorem validateOrigin_literal_iff (config : Config) (o : GoString)
    (hv : config.Validate = .ok ()) (hall : config.AllowAllOrigins = false)
    (hw : config.AllowWildcard = false) (hf : config.AllowOriginFunc = none)
    (hs : ∀ s ∈ config.AllowOrigins, starByte ∉ s) :
    ∃ p, newCors config = .ok p
      ∧ (p.validateOrigin o = true ↔ o ∈ normalize config.AllowOrigins)
      ∧ (p.validateOrigin o = true ↔ ∃ s ∈ config.AllowOrigins, o = ToLower (TrimSpace s)) := by
  have hstar : star ∉ config.AllowOrigins := fun hm => hs star hm (by simp [star])
  have hp : config.parseWildcardRules = .ok [] := by simp [Config.parseWildcardRules, hw]
  have key : (compiled config []).validateOrigin o = true ↔ o ∈ normalize config.AllowOrigins := by
    simp [cors.validateOrigin, compiled, hall, hstar, hf, originLoop_eq]
  refine ⟨compiled config [], ?_, key, ?_⟩
  · rw [newCors_eq, hv, hp]
  · rw [key, mem_normalize]

/-- Witness of C2 (as amended): the literal configuration of `TestWildcard` and
the origin `"https://github.com"`. -/
theorem validateOrigin_literal_iff_witness :
    ∃ p, newCors literalConfig = .ok p
      ∧ (p.validateOrigin (bytes "https://github.com") = true
          ↔ bytes "https://github.com" ∈ normalize literalConfig.AllowOrigins)
      ∧ (p.validateOrigin (bytes "https://github.com") = true
          ↔ ∃ s ∈ literalConfig.AllowOrigins,
              bytes "https://github.com" = ToLower (TrimSpace s)) :=
  validateOrigin_literal_iff literalConfig (bytes "https://github.com")
    (by decide) (by decide) (by decide) (by rfl) (by decide)

/-- C2 (counterexample): the configured entry `"http://Google.com"` passes
`Validate` and belongs to the origin list, yet the compiled policy rejects that
very string: the compiled list holds its lower-cased form. -/
theorem validateOrigin_literal_counterexample :
    mixedCaseConfig.Validate = .ok ()
      ∧ mixedCaseConfig.AllowAllOrigins = false ∧ mixedCaseConfig.AllowWildcard = false
      ∧ mixedCaseConfig.AllowOriginFunc.isNone = true
      ∧ (∀ s ∈ mixedCaseConfig.AllowOrigins, starByte ∉ s)
      ∧ bytes "http://Google.com" ∈ mixedCaseConfig.AllowOrigins
      ∧ ∃ p, newCors mixedCaseConfig = .ok p
          ∧ p.validateOrigin (bytes "http://Google.com") = false
          ∧ p.validateOrigin (bytes "http://google.com") = true :=
  ⟨by decide, by decide, by decide, by decide, by decide, by decide,
    compiled mixedCaseConfig [], by rfl, by decide, by decide⟩

/-- C4 (counterexample): with the predicate of `TestValidateOrigin` set and the
policy compiled, the origin `"https://google.com"` of `AllowOrigins` is accepted
although the predicate answers `false` for it: the decision is not the
predicate's answer. -/
theorem validateOrigin_func_counterexample :
    funcConfig.AllowOriginFunc.isSome = true
      ∧ alphabetFunc (bytes "https://google.com") = false
      ∧ ∃ p, newCors funcConfig = .ok p
          ∧ p.validateOrigin (bytes "https://google.com") = true :=
  ⟨by decide, by decide, compiled funcConfig [], by rfl, by decide⟩

/-- C4 (as amended): when a predicate is set and the policy is compiled, an
origin that matches the allowed origins (a `"*"` entry, an element of the
normalized list, or a wildcard rule when wildcards are enabled) is accepted
whatever the predicate answers, and for every other origin the decision is
exactly the predicate's answer: the predicate is a fallback, the content of
`AllowOrigins` is not ignored. -/
theorem validateOrigin_func_fallback (config : Config) (f : GoString → Bool) (p : cors)
    (o : GoString) (hf : config.AllowOriginFunc = some f) (hnew : newCors config = .ok p) :
    p.validateOrigin o
      = if star ∈ config.AllowOrigins ∨ o ∈ normalize config.AllowOrigins
            ∨ (config.AllowWildcard = true
                ∧ ∃ s ∈ config.AllowOrigins, starByte ∈ s ∧ ruleMatches o (ruleOf s) = true)
        then true else f o := by
  rw [newCors_eq] at hnew
  cases hv : config.Validate with
  | error e => simp [hv] at hnew
  | ok u =>
    cases hr : config.parseWildcardRules with
    | error e => simp [hv, hr] at hnew
    | ok wRules =>
      simp only [hv, hr, Except.ok.injEq] at hnew
      subst hnew
      have hall : config.AllowAllOrigins = false := by
        cases ha : config.AllowAllOrigins
        · rfl
        · unfold Config.Validate at hv
          simp [ha, hf] at hv
      have hw : wRules = if config.AllowWildcard = true then
          (config.AllowOrigins.filter (fun s => decide (starByte ∈ s))).map ruleOf else [] := by
        cases hwc : config.AllowWildcard
        · have e1 : config.parseWildcardRules = .ok [] := by
            simp [Config.parseWildcardRules, hwc]
          rw [e1] at hr
          cases hr
          simp
        · have h1 := parseWildcardRules_ok config
            (fun _ => count_le_one_of_parse_ok config wRules hr hwc)
          rw [h1] at hr
          simp only [hwc, if_true, Except.ok.injEq] at hr
          simp [← hr]
      have hwm : (∃ w ∈ wRules, ruleMatches o w = true)
          ↔ (config.AllowWildcard = true
              ∧ ∃ s ∈ config.AllowOrigins, starByte ∈ s ∧ ruleMatches o (ruleOf s) = true) := by
        rw [hw]
        cases config.AllowWildcard
        · simp
        · simp only [if_true, List.mem_map, List.mem_filter, decide_eq_true_eq, true_and]
          constructor
          · rintro ⟨w, ⟨s, ⟨hs, hm⟩, rfl⟩, hmatch⟩
            exact ⟨s, hs, hm, hmatch⟩
          · rintro ⟨s, hs, hm, hmatch⟩
            exact ⟨ruleOf s, ⟨s, ⟨hs, hm⟩, rfl⟩, hmatch⟩
      have key := validateOrigin_iff (compiled config wRules) o
      have hwo : (compiled config wRules).wildcardOrigins = wRules := rfl
      have hao : (compiled config wRules).allowAllOrigins = decide (star ∈ config.AllowOrigins) := by
        simp [compiled, hall]
      have hlo : (compiled config wRules).allowOrigins = normalize config.AllowOrigins := rfl
      have hfo : (compiled config wRules).allowOriginFunc = some f := hf
      rw [hwo, hwm, hao, hlo, hfo] at key
      simp only [decide_eq_true_eq, predicateResult] at key
      by_cases hP : star ∈ config.AllowOrigins ∨ o ∈ normalize config.AllowOrigins
            ∨ (config.AllowWildcard = true
                ∧ ∃ s ∈ config.AllowOrigins, starByte ∈ s ∧ ruleMatches o (ruleOf s) = true)
      · rw [if_pos hP]
        apply key.mpr
        rcases hP with h | h | h
        · exact Or.inl h
        · exact Or.inr (Or.inl h)
        · exact Or.inr (Or.inr (Or.inl h))
      · rw [if_neg hP]
        cases hfo2 : f o
        · cases hval : (compiled config wRules).validateOrigin o
          · rfl
          · exfalso
            rcases key.mp hval with h | h | h | h
            · exact hP (Or.inl h)
            · exact hP (Or.inr (Or.inl h))
            · exact hP (Or.inr (Or.inr h))
            · rw [hfo2] at h
              cases h
        · exact key.mpr (Or.inr (Or.inr (Or.inr hfo2)))

/-- Witness of C4 (as amended): under the second configuration of
`TestValidateOrigin` the origin the predicate names is accepted, an origin of
`AllowOrigins` is accepted although the predicate rejects it, and an origin
that is neither is rejected. -/
theorem validateOrigin_func_fallback_witness :
    ((compiled funcConfig []).validateOrigin (bytes "http://abcdefghijklmnopqrstuvwxyz")
        = if star ∈ funcConfig.AllowOrigins
              ∨ bytes "http://abcdefghijklmnopqrstuvwxyz" ∈ normalize funcConfig.AllowOrigins
              ∨ (funcConfig.AllowWildcard = true
                  ∧ ∃ s ∈ funcConfig.AllowOrigins, starByte ∈ s
                      ∧ ruleMatches (bytes "http://abcdefghijklmnopqrstuvwxyz") (ruleOf s) = true)
          then true else alphabetFunc (bytes "http://abcdefghijklmnopqrstuvwxyz"))
      ∧ (compiled funcConfig []).validateOrigin (bytes "http://abcdefghijklmnopqrstuvwxyz") = true
      ∧ (compiled funcConfig []).validateOrigin (bytes "https://github.com") = true
      ∧ alphabetFunc (bytes "https://github.com") = false
      ∧ (compiled funcConfig []).validateOrigin (bytes "http://example.com") = false :=
  ⟨validateOrigin_func_fallback funcConfig alphabetFunc (compiled funcConfig [])
      (bytes "http://abcdefghijklmnopqrstuvwxyz") (by rfl) (by rfl),
    by decide, by decide, by decide, by decide⟩

/-- C5 (as amended): a configuration that passes `Validate` with
`AllowAllOrigins` unset, holds the literal entry `"*"` and, when wildcards are
enabled, no entry with more than one `*`, is compiled, and the compiled policy
is allow-all and accepts every origin. -/
theorem validateOrigin_star_entry (config : Config) (o : GoString)
    (_hall : config.AllowAllOrigins = false) (hv : config.Validate = .ok ())
    (hstar : star ∈ config.AllowOrigins)
    (hone : config.AllowWildcard = true → ∀ s ∈ config.AllowOrigins, Count s starByte ≤ 1) :
    ∃ p, newCors config = .ok p ∧ p.allowAllOrigins = true ∧ p.validateOrigin o = true := by
  refine ⟨compiled config (if config.AllowWildcard then
      (config.AllowOrigins.filter (fun o => decide (starByte ∈ o))).map ruleOf else []),
    ?_, ?_, ?_⟩
  · rw [newCors_eq, hv, parseWildcardRules_ok config hone]
  · simp [compiled, hstar]
  · simp [cors.validateOrigin, compiled, hstar]

/-- Witness of C5 (as amended): `Config{AllowOrigins: []string{"*"}}` of
`TestValidateOrigin` and the origin `"example.com"`. -/
theorem validateOrigin_star_entry_witness :
    ∃ p, newCors starConfig = .ok p ∧ p.allowAllOrigins = true
      ∧ p.validateOrigin (bytes "example.com") = true :=
  validateOrigin_star_entry starConfig (bytes "example.com")
    (by decide) (by decide) (by decide) (by decide)

/-- C5 (counterexample): a configuration with `AllowAllOrigins` unset and the
entry `"*"` passes `Validate`, yet no policy is compiled from it: the second
entry has two stars and wildcards are enabled. -/
theorem validateOrigin_star_entry_counterexample :
    starAndTwoStarsConfig.AllowAllOrigins = false
      ∧ starAndTwoStarsConfig.Validate = .ok ()
      ∧ star ∈ starAndTwoStarsConfig.AllowOrigins
      ∧ (newCors starAndTwoStarsConfig).isOk = false :=
  ⟨by decide, by decide, by decide, by rfl⟩

/-- C7 (as amended): with wildcards enabled, a pattern with more than one `*`
makes `parseWildcardRules`, and so the construction of the policy, fail. -/
theorem newCors_two_stars_error (config : Config)
    (hw : config.AllowWildcard = true)
    (h : ∃ s ∈ config.AllowOrigins, Count s starByte > 1) :
    (∃ e, config.parseWildcardRules = .error e) ∧ ∃ e, newCors config = .error e := by
  have hp : ∃ e, config.parseWildcardRules = .error e := by
    unfold Config.parseWildcardRules
    simpa [hw] using parseWildcardLoop_error config.AllowOrigins [] h
  refine ⟨hp, ?_⟩
  obtain ⟨e, he⟩ := hp
  rw [newCors_eq]
  cases hv : config.Validate with
  | error err => exact ⟨err, rfl⟩
  | ok u => exact ⟨e, by simp [he]⟩

/-- Witness of C7 (as amended): the configuration of
`TestConfig_parseWildcardRules`, with the pattern `"www.*.*"`. -/
theorem newCors_two_stars_error_witness :
    (∃ e, twoStarsConfig.parseWildcardRules = .error e)
      ∧ ∃ e, newCors twoStarsConfig = .error e :=
  newCors_two_stars_error twoStarsConfig (by decide)
    ⟨bytes "www.*.*", by decide, by decide⟩

/-- C7 (counterexample): with wildcards left disabled the pattern `"www.*.*"`
passes construction, and the compiled policy compares it with the origin. -/
theorem newCors_two_stars_counterexample :
    bytes "www.*.*" ∈ twoStarsNoWildcardConfig.AllowOrigins
      ∧ Count (bytes "www.*.*") starByte > 1
      ∧ ∃ p, newCors twoStarsNoWildcardConfig = .ok p
          ∧ p.validateOrigin (bytes "www.*.*") = true :=
  ⟨by decide, by decide, compiled twoStarsNoWildcardConfig [], by rfl, by decide⟩

/-- C8: an interior wildcard `pre ++ "*" ++ suf` (one star, neither first nor
last) compiles to the rule `(pre, suf)`, and a policy with only that rule
accepts an origin exactly when it starts with `pre` and ends with `suf`. -/
theorem interior_wildcard (config : Config) (p : cors) (pre suf o : GoString)
    (hw : config.AllowWildcard = true) (ho : config.AllowOrigins = [pre ++ star ++ suf])
    (hpre : starByte ∉ pre) (hsuf : starByte ∉ suf) (hpne : pre ≠ []) (hsne : suf ≠ [])
    (hp : p.wildcardOrigins = [(pre, suf)]) :
    config.parseWildcardRules = .ok [(pre, suf)]
      ∧ (p.validateWildcardOrigin o = true ↔ pre <+: o ∧ suf <:+ o) := by
  constructor
  · rw [parseWildcardRules_one_star config pre suf hw ho hpre hsuf,
      ruleOf_one_star pre suf hpre hsuf]
    simp [hpne, hsne]
  · have h1 := star_ne_of_not_mem pre hpre
    have h2 := star_ne_of_not_mem suf hsuf
    unfold cors.validateWildcardOrigin
    rw [hp, ← HasPrefix_iff, ← HasSuffix_iff]
    simp [wildcardLoop, h1, h2]

/-- Witness of C8: the pattern `"https://*.github.com"` compiles to the rule
`("https://", ".github.com")`, which accepts `"https://gist.github.com"` and
`"https://api.github.com"` and rejects `"https://github.com"` and
`"http://gist.github.com"`. -/
theorem interior_wildcard_witness :
    (Config.parseWildcardRules (patternConfig (bytes "https://*.github.com"))
        = .ok [(bytes "https://", bytes ".github.com")]
      ∧ ((wildcardPolicy [(bytes "https://", bytes ".github.com")]).validateWildcardOrigin
            (bytes "https://gist.github.com") = true
          ↔ bytes "https://" <+: bytes "https://gist.github.com"
            ∧ bytes ".github.com" <:+ bytes "https://gist.github.com"))
      ∧ (wildcardPolicy [(bytes "https://", bytes ".github.com")]).validateWildcardOrigin
          (bytes "https://gist.github.com") = true
      ∧ (wildcardPolicy [(bytes "https://", bytes ".github.com")]).validateWildcardOrigin
          (bytes "https://api.github.com") = true
      ∧ (wildcardPolicy [(bytes "https://", bytes ".github.com")]).validateWildcardOrigin
          (bytes "https://github.com") = false
      ∧ (wildcardPolicy [(bytes "https://", bytes ".github.com")]).validateWildcardOrigin
          (bytes "http://gist.github.com") = false :=
  ⟨interior_wildcard (patternConfig (bytes "https://*.github.com"))
      (wildcardPolicy [(bytes "https://", bytes ".github.com")])
      (bytes "https://") (bytes ".github.com") (bytes "https://gist.github.com")
      (by decide) (by decide) (by decide) (by decide) (by decide) (by decide) (by rfl),
    by decide, by decide, by decide, by decide⟩

/-- C9: a leading wildcard `"*" ++ s` compiles to the rule `("*", s)`, and a
policy with only that rule accepts an origin exactly when it ends with `s`. -/
theorem leading_wildcard (config : Config) (p : cors) (s o : GoString)
    (hw : config.AllowWildcard = true) (ho : config.AllowOrigins = [star ++ s])
    (hs : starByte ∉ s) (hp : p.wildcardOrigins = [(star, s)]) :
    config.parseWildcardRules = .ok [(star, s)]
      ∧ (p.validateWildcardOrigin o = true ↔ s <:+ o) := by
  constructor
  · have h := parseWildcardRules_one_star config [] s hw (by simpa using ho) (by simp) hs
    rw [h, ruleOf_one_star [] s (by simp) hs]
    simp
  · have h2 := star_ne_of_not_mem s hs
    unfold cors.validateWildcardOrigin
    rw [hp, ← HasSuffix_iff]
    simp only [wildcardLoop, h2, decide_True, decide_False, Bool.true_and, Bool.false_and]
    cases HasSuffix o s <;> simp

/-- Witness of C9: the pattern `"*.golang.org"` compiles to the rule
`("*", ".golang.org")`, which accepts `"https://something.golang.org"` and
rejects `"https://something.go.org"`. -/
theorem leading_wildcard_witness :
    (Config.parseWildcardRules (patternConfig (bytes "*.golang.org"))
        = .ok [(star, bytes ".golang.org")]
      ∧ ((wildcardPolicy [(star, bytes ".golang.org")]).validateWildcardOrigin
            (bytes "https://something.golang.org") = true
          ↔ bytes ".golang.org" <:+ bytes "https://something.golang.org"))
      ∧ (wildcardPolicy [(star, bytes ".golang.org")]).validateWildcardOrigin
          (bytes "https://something.golang.org") = true
      ∧ (wildcardPolicy [(star, bytes ".golang.org")]).validateWildcardOrigin
          (bytes "https://something.go.org") = false :=
  ⟨leading_wildcard (patternConfig (bytes "*.golang.org"))
      (wildcardPolicy [(star, bytes ".golang.org")])
      (bytes ".golang.org") (bytes "https://something.golang.org")
      (by decide) (by decide) (by decide) (by rfl),
    by decide, by decide⟩

/-- C10: a trailing wildcard `q ++ "*"` with `q` non-empty and free of `*`
compiles to the rule whose first component is `q` without its last byte (the
byte before the star is dropped), and a policy with only that rule accepts an
origin exactly when it starts with that shortened text. -/
theorem trailing_wildcard (config : Config) (p : cors) (q o : GoString)
    (hw : config.AllowWildcard = true) (ho : config.AllowOrigins = [q ++ star])
    (hq : starByte ∉ q) (hne : q ≠ []) (hp : p.wildcardOrigins = [(q.dropLast, star)]) :
    config.parseWildcardRules = .ok [(q.dropLast, star)]
      ∧ (p.validateWildcardOrigin o = true ↔ q.dropLast <+: o) := by
  constructor
  · have h := parseWildcardRules_one_star config q [] hw (by simpa using ho) hq (by simp)
    rw [h, ruleOf_one_star q [] hq (by simp)]
    simp [hne]
  · have h1 : q.dropLast ≠ star :=
      star_ne_of_not_mem _ (fun hm => hq (List.dropLast_subset q hm))
    unfold cors.validateWildcardOrigin
    rw [hp, ← HasPrefix_iff]
    simp only [wildcardLoop, h1, decide_True, decide_False, Bool.true_and, Bool.false_and]
    cases HasPrefix o q.dropLast <;> simp

/-- Witness of C10: the pattern `"https://api.*"` compiles to the rule with
first component `"https://api"`, which accepts
`"https://api.github.com/v1/users"`. -/
theorem trailing_wildcard_witness :
    (Config.parseWildcardRules (patternConfig (bytes "https://api.*"))
        = .ok [((bytes "https://api.").dropLast, star)]
      ∧ ((wildcardPolicy [((bytes "https://api.").dropLast, star)]).validateWildcardOrigin
            (bytes "https://api.github.com/v1/users") = true
          ↔ (bytes "https://api.").dropLast <+: bytes "https://api.github.com/v1/users"))
      ∧ (bytes "https://api.").dropLast = bytes "https://api"
      ∧ (wildcardPolicy [(bytes "https://api", star)]).validateWildcardOrigin
          (bytes "https://api.github.com/v1/users") = true :=
  ⟨trailing_wildcard (patternConfig (bytes "https://api.*"))
      (wildcardPolicy [((bytes "https://api.").dropLast, star)])
      (bytes "https://api.") (bytes "https://api.github.com/v1/users")
      (by decide) (by decide) (by decide) (by decide) (by rfl),
    by decide, by decide⟩

/-- C11: on a request that has not been aborted, `applyCors` aborts with status
403 exactly when the `Origin` header is non-empty, the request is not
same-origin and `validateOrigin` rejects the origin, whatever the method; the
result is then the context aborted with 403, its response headers untouched. -/
theorem applyCors_forbidden_iff (p : cors) (c : RequestContext) (h : c.aborted = false) :
    (((p.applyCors c).aborted = true ∧ (p.applyCors c).Response.StatusCode = 403)
        ↔ (c.Request.Origin ≠ [] ∧ ¬ sameOrigin c.Request
            ∧ p.validateOrigin c.Request.Origin = false))
      ∧ (p.applyCors c = c.AbortWithStatus 403
        ↔ (c.Request.Origin ≠ [] ∧ ¬ sameOrigin c.Request
            ∧ p.validateOrigin c.Request.Origin = false))
      ∧ (c.AbortWithStatus 403).Response.Header = c.Response.Header := by
  have hne : ∀ x : RequestContext, x.aborted = false → x ≠ c.AbortWithStatus 403 := by
    intro x hx e
    rw [e] at hx
    simp [RequestContext.AbortWithStatus] at hx
  rw [applyCors_eq]
  refine ⟨?_, ?_, rfl⟩
  · split_ifs with h0 h1 h2 h3 h4 <;>
      simp_all [RequestContext.AbortWithStatus, RequestContext.SetHeader, cors.handleNormal,
        cors.handlePreflight]
  · split_ifs with h0 h1 h2 h3 h4
    · simpa [h0] using hne c h
    · simpa [h0, h1] using hne c h
    · simp [h0, h1, h2]
    · have : p.validateOrigin c.Request.Origin = true := by simpa using h2
      simp [h0, h1, this, RequestContext.AbortWithStatus]
    · have : p.validateOrigin c.Request.Origin = true := by simpa using h2
      simp [h0, h1, this, RequestContext.AbortWithStatus]
    · have hv : p.validateOrigin c.Request.Origin = true := by simpa using h2
      simp only [h0, h1, hv, not_false_eq_true, ne_eq, not_true_eq_false, and_false,
        Bool.true_eq_false, iff_false]
      exact hne _ (by simp [RequestContext.SetHeader, cors.handleNormal, h])
    · have hv : p.validateOrigin c.Request.Origin = true := by simpa using h2
      simp only [h0, h1, hv, not_false_eq_true, ne_eq, not_true_eq_false, and_false,
        Bool.true_eq_false, iff_false]
      exact hne _ (by simp [cors.handleNormal, h])

/-- Witness of C11: under the policy of `TestPassesAllowOrigins` the preflight
request with `Origin: http://example.com` is aborted with 403 and no header. -/
theorem applyCors_forbidden_iff_witness :
    ((((passesPolicy.applyCors (testContext (bytes "OPTIONS") (bytes "http://example.com"))).aborted
            = true
          ∧ (passesPolicy.applyCors
              (testContext (bytes "OPTIONS") (bytes "http://example.com"))).Response.StatusCode
            = 403)
        ↔ ((testContext (bytes "OPTIONS") (bytes "http://example.com")).Request.Origin ≠ []
            ∧ ¬ sameOrigin (testContext (bytes "OPTIONS") (bytes "http://example.com")).Request
            ∧ passesPolicy.validateOrigin
                (testContext (bytes "OPTIONS") (bytes "http://example.com")).Request.Origin
              = false))
      ∧ (passesPolicy.applyCors (testContext (bytes "OPTIONS") (bytes "http://example.com"))
          = (testContext (bytes "OPTIONS") (bytes "http://example.com")).AbortWithStatus 403
        ↔ ((testContext (bytes "OPTIONS") (bytes "http://example.com")).Request.Origin ≠ []
            ∧ ¬ sameOrigin (testContext (bytes "OPTIONS") (bytes "http://example.com")).Request
            ∧ passesPolicy.validateOrigin
                (testContext (bytes "OPTIONS") (bytes "http://example.com")).Request.Origin
              = false))
      ∧ ((testContext (bytes "OPTIONS") (bytes "http://example.com")).AbortWithStatus
            403).Response.Header
          = (testContext (bytes "OPTIONS") (bytes "http://example.com")).Response.Header)
      ∧ newCors passesConfig = .ok passesPolicy
      ∧ passesPolicy.applyCors (testContext (bytes "OPTIONS") (bytes "http://example.com"))
          = { Request := { Origin := bytes "http://example.com", Host := bytes "facebook.com",
                           Method := bytes "OPTIONS" }
              Response := { Header := [], StatusCode := 403, Body := [] }
              aborted := true }
      ∧ (passesPolicy.applyCors
          (testContext (bytes "GET") (bytes "https://dummy.com"))).Response.StatusCode = 403 :=
  ⟨applyCors_forbidden_iff passesPolicy
      (testContext (bytes "OPTIONS") (bytes "http://example.com")) (by decide),
    by rfl, by decide, by decide⟩

/-- C12: a request without `Origin` header (or with an empty one) goes through
unchanged on both paths: `applyCors` returns the context as it was and
`applyProxyCors` the response as it was, whatever the policy. -/
theorem applyCors_no_origin (p : cors) (c : RequestContext) (req : Request) (resp : Response)
    (hc : c.Request.Origin = []) (hreq : req.Origin = []) :
    p.applyCors c = c ∧ p.applyProxyCors req resp = resp := by
  constructor
  · rw [applyCors_eq]
    simp [hc]
  · rw [applyProxyCors_eq]
    simp [hreq]

/-- Witness of C12: the request without origin of `TestPassesAllowOrigins`. -/
theorem applyCors_no_origin_witness :
    passesPolicy.applyCors (testContext (bytes "GET") []) = testContext (bytes "GET") []
      ∧ passesPolicy.applyProxyCors noOriginRequest upstreamResponse = upstreamResponse :=
  applyCors_no_origin passesPolicy (testContext (bytes "GET") []) noOriginRequest
    upstreamResponse (by decide) (by decide)

/-- C13: a same-origin request (`Origin` is `"http://"` or `"https://"` followed
by the declared host) goes through `applyCors` unchanged, whatever the policy:
no header is written, nothing is aborted. -/
theorem applyCors_same_origin (p : cors) (c : RequestContext) (h : sameOrigin c.Request) :
    p.applyCors c = c := by
  rw [applyCors_eq]
  simp [h]

/-- Witness of C13: `Origin: http://facebook.com` and `Origin:
https://facebook.com` with host `facebook.com`, under the policy of
`TestPassesAllowOrigins`, which rejects both origins. -/
theorem applyCors_same_origin_witness :
    passesPolicy.applyCors (testContext (bytes "GET") (bytes "http://facebook.com"))
        = testContext (bytes "GET") (bytes "http://facebook.com")
      ∧ passesPolicy.applyCors (testContext (bytes "GET") (bytes "https://facebook.com"))
        = testContext (bytes "GET") (bytes "https://facebook.com")
      ∧ passesPolicy.validateOrigin (bytes "http://facebook.com") = false
      ∧ passesPolicy.validateOrigin (bytes "https://facebook.com") = false :=
  ⟨applyCors_same_origin passesPolicy _ (by decide),
    applyCors_same_origin passesPolicy _ (by decide), by decide, by decide⟩

/-- C14: an accepted preflight (method `OPTIONS`, non-empty `Origin`, not
same-origin, origin accepted) is terminated with status 204; at every key the
response headers then hold the echoed origin for
`Access-Control-Allow-Origin` when the policy is not allow-all, otherwise the
non-empty value `preflightHeaders` has for the key, otherwise what the response
held before. -/
theorem applyCors_preflight (p : cors) (c : RequestContext) (key : GoString)
    (hm : c.Request.Method = bytes "OPTIONS") (ho : c.Request.Origin ≠ [])
    (hs : ¬ sameOrigin c.Request) (hv : p.validateOrigin c.Request.Origin = true) :
    (p.applyCors c).aborted = true
      ∧ (p.applyCors c).Response.StatusCode = 204
      ∧ (p.applyCors c).Response.Body = c.Response.Body
      ∧ (p.applyCors c).Response.Header.lookup key
        = if key = bytes "Access-Control-Allow-Origin" ∧ p.allowAllOrigins = false
          then some c.Request.Origin
          else (written p.preflightHeaders key).or (c.Response.Header.lookup key) := by
  rw [applyCors_eq]
  simp only [ho, hs, hv, hm, if_false, if_true, Bool.true_eq_false]
  refine ⟨rfl, rfl, ?_, ?_⟩
  · cases p.allowAllOrigins <;> rfl
  · rw [← lookup_accepted p.preflightHeaders c.Response.Header p.allowAllOrigins]
    cases p.allowAllOrigins <;> rfl

/-- Witness of C14: the preflight request with `Origin: http://github.com` of
`TestPassesAllowOrigins` yields 204 with `Access-Control-Allow-Methods:
GET,POST,PUT,HEAD`, `Access-Control-Allow-Headers: Content-Type,Timestamp`,
`Access-Control-Max-Age: 43200` and the origin echoed. -/
theorem applyCors_preflight_witness :
    ((passesPolicy.applyCors (testContext (bytes "OPTIONS") (bytes "http://github.com"))).aborted
          = true
        ∧ (passesPolicy.applyCors
            (testContext (bytes "OPTIONS") (bytes "http://github.com"))).Response.StatusCode = 204
        ∧ (passesPolicy.applyCors
            (testContext (bytes "OPTIONS") (bytes "http://github.com"))).Response.Body
          = (testContext (bytes "OPTIONS") (bytes "http://github.com")).Response.Body
        ∧ (passesPolicy.applyCors
            (testContext (bytes "OPTIONS") (bytes "http://github.com"))).Response.Header.lookup
              (bytes "Access-Control-Allow-Methods")
          = if bytes "Access-Control-Allow-Methods" = bytes "Access-Control-Allow-Origin"
                ∧ passesPolicy.allowAllOrigins = false
            then some (testContext (bytes "OPTIONS") (bytes "http://github.com")).Request.Origin
            else (written passesPolicy.preflightHeaders
                    (bytes "Access-Control-Allow-Methods")).or
                  ((testContext (bytes "OPTIONS")
                    (bytes "http://github.com")).Response.Header.lookup
                      (bytes "Access-Control-Allow-Methods")))
      ∧ (passesPolicy.applyCors (testContext (bytes "OPTIONS") (bytes "http://github.com"))).Response
          = { Header := [(bytes "Access-Control-Allow-Methods", bytes "GET,POST,PUT,HEAD"),
                (bytes "Access-Control-Allow-Headers", bytes "Content-Type,Timestamp"),
                (bytes "Access-Control-Max-Age", bytes "43200"),
                (bytes "Vary", bytes "Origin"),
                (bytes "Access-Control-Allow-Origin", bytes "http://github.com")]
              StatusCode := 204
              Body := [] } :=
  ⟨applyCors_preflight passesPolicy (testContext (bytes "OPTIONS") (bytes "http://github.com"))
      (bytes "Access-Control-Allow-Methods") (by decide) (by decide) (by decide) (by decide),
    by decide⟩

/-- C15: an accepted simple request (method other than `OPTIONS`, non-empty
`Origin`, not same-origin, origin accepted) is not aborted and keeps its status
and body; at every key the response headers then hold the echoed origin for
`Access-Control-Allow-Origin` when the policy is not allow-all, otherwise the
non-empty value `normalHeaders` has for the key, otherwise what the response
held before. -/
theorem applyCors_simple (p : cors) (c : RequestContext) (key : GoString)
    (hm : c.Request.Method ≠ bytes "OPTIONS") (ho : c.Request.Origin ≠ [])
    (hs : ¬ sameOrigin c.Request) (hv : p.validateOrigin c.Request.Origin = true) :
    (p.applyCors c).aborted = c.aborted
      ∧ (p.applyCors c).Response.StatusCode = c.Response.StatusCode
      ∧ (p.applyCors c).Response.Body = c.Response.Body
      ∧ (p.applyCors c).Response.Header.lookup key
        = if key = bytes "Access-Control-Allow-Origin" ∧ p.allowAllOrigins = false
          then some c.Request.Origin
          else (written p.normalHeaders key).or (c.Response.Header.lookup key) := by
  rw [applyCors_eq]
  simp only [ho, hs, hv, hm, if_false, Bool.true_eq_false]
  refine ⟨?_, ?_, ?_, ?_⟩
  · cases p.allowAllOrigins <;> rfl
  · cases p.allowAllOrigins <;> rfl
  · cases p.allowAllOrigins <;> rfl
  · rw [← lookup_accepted p.normalHeaders c.Response.Header p.allowAllOrigins]
    cases p.allowAllOrigins <;> rfl

/-- Witness of C15: the `GET` request with `Origin: http://google.com` of
`TestPassesAllowOrigins` keeps its status 200 and gets the exposed headers and
the origin echoed. -/
theorem applyCors_simple_witness :
    ((passesPolicy.applyCors (testContext (bytes "GET") (bytes "http://google.com"))).aborted
          = (testContext (bytes "GET") (bytes "http://google.com")).aborted
        ∧ (passesPolicy.applyCors
            (testContext (bytes "GET") (bytes "http://google.com"))).Response.StatusCode
          = (testContext (bytes "GET") (bytes "http://google.com")).Response.StatusCode
        ∧ (passesPolicy.applyCors
            (testContext (bytes "GET") (bytes "http://google.com"))).Response.Body
          = (testContext (bytes "GET") (bytes "http://google.com")).Response.Body
        ∧ (passesPolicy.applyCors
            (testContext (bytes "GET") (bytes "http://google.com"))).Response.Header.lookup
              (bytes "Access-Control-Expose-Headers")
          = if bytes "Access-Control-Expose-Headers" = bytes "Access-Control-Allow-Origin"
                ∧ passesPolicy.allowAllOrigins = false
            then some (testContext (bytes "GET") (bytes "http://google.com")).Request.Origin
            else (written passesPolicy.normalHeaders
                    (bytes "Access-Control-Expose-Headers")).or
                  ((testContext (bytes "GET")
                    (bytes "http://google.com")).Response.Header.lookup
                      (bytes "Access-Control-Expose-Headers")))
      ∧ passesPolicy.applyCors (testContext (bytes "GET") (bytes "http://google.com"))
          = { Request := { Origin := bytes "http://google.com", Host := bytes "facebook.com",
                           Method := bytes "GET" }
              Response :=
                { Header := [(bytes "Access-Control-Expose-Headers", bytes "Data,X-User"),
                    (bytes "Vary", bytes "Origin"),
                    (bytes "Access-Control-Allow-Origin", bytes "http://google.com")]
                  StatusCode := 200
                  Body := [] }
              aborted := false } :=
  ⟨applyCors_simple passesPolicy (testContext (bytes "GET") (bytes "http://google.com"))
      (bytes "Access-Control-Expose-Headers") (by decide) (by decide) (by decide) (by decide),
    by decide⟩

/-- C16: after `applyCors` on an accepted cross-origin request (preflight or
simple) under a policy compiled from a configuration, the response header
`Access-Control-Allow-Origin` is `"*"` when the policy is allow-all, and the
request origin itself otherwise; the policy is allow-all when the configuration
says so or lists the entry `"*"`. -/
theorem applyCors_allow_origin (config : Config) (p : cors) (c : RequestContext)
    (hnew : newCors config = .ok p) (ho : c.Request.Origin ≠ [])
    (hs : ¬ sameOrigin c.Request) (hv : p.validateOrigin c.Request.Origin = true) :
    p.allowAllOrigins = (config.AllowAllOrigins || decide (star ∈ config.AllowOrigins))
      ∧ (p.applyCors c).Response.Header.lookup (bytes "Access-Control-Allow-Origin")
        = some (if p.allowAllOrigins = true then bytes "*" else c.Request.Origin) := by
  obtain ⟨wRules, hp⟩ := newCors_ok_compiled config p hnew
  refine ⟨by rw [hp]; rfl, ?_⟩
  by_cases hm : c.Request.Method = bytes "OPTIONS"
  · rw [(applyCors_preflight p c _ hm ho hs hv).2.2.2]
    cases ha : p.allowAllOrigins
    · simp
    · have hw := (written_compiled_allowAll config wRules (by rw [← hp]; exact ha)).2
      rw [← hp] at hw
      simp [hw]
  · rw [(applyCors_simple p c _ hm ho hs hv).2.2.2]
    cases ha : p.allowAllOrigins
    · simp
    · have hw := (written_compiled_allowAll config wRules (by rw [← hp]; exact ha)).1
      rw [← hp] at hw
      simp [hw]

/-- Witness of C16: `"*"` under the configuration of
`TestPassesAllowAllOrigins` (simple and preflight request) and under
`Config{AllowOrigins: []string{"*"}}`, the origin itself under the
configuration of `TestPassesAllowOrigins`. -/
theorem applyCors_allow_origin_witness :
    ((compiled allowAllConfig []).allowAllOrigins
          = (allowAllConfig.AllowAllOrigins || decide (star ∈ allowAllConfig.AllowOrigins))
        ∧ ((compiled allowAllConfig []).applyCors
            (testContext (bytes "POST") (bytes "example.com"))).Response.Header.lookup
              (bytes "Access-Control-Allow-Origin")
          = some (if (compiled allowAllConfig []).allowAllOrigins = true then bytes "*"
              else (testContext (bytes "POST") (bytes "example.com")).Request.Origin))
      ∧ ((compiled allowAllConfig []).applyCors
          (testContext (bytes "POST") (bytes "example.com"))).Response.Header.lookup
            (bytes "Access-Control-Allow-Origin") = some (bytes "*")
      ∧ ((compiled allowAllConfig []).applyCors
          (testContext (bytes "OPTIONS") (bytes "https://google.com"))).Response.Header.lookup
            (bytes "Access-Control-Allow-Origin") = some (bytes "*")
      ∧ newCors starConfig = .ok (compiled starConfig [])
      ∧ ((compiled starConfig []).applyCors
          (testContext (bytes "GET") (bytes "http://google.com"))).Response.Header.lookup
            (bytes "Access-Control-Allow-Origin") = some (bytes "*")
      ∧ (passesPolicy.applyCors
          (testContext (bytes "GET") (bytes "http://github.com"))).Response.Header.lookup
            (bytes "Access-Control-Allow-Origin") = some (bytes "http://github.com") :=
  ⟨applyCors_allow_origin allowAllConfig (compiled allowAllConfig [])
      (testContext (bytes "POST") (bytes "example.com")) (by rfl) (by decide) (by decide)
      (by decide),
    by decide, by decide, by rfl, by decide, by decide⟩

/-- C17: on the client-proxy path the status code and the body are never
touched; the response is returned as it was when the `Origin` is empty,
same-origin or rejected; otherwise, whatever the request method, the response
is the one `applyCors` leaves for the same origin and host on a request with a
method `m` other than `OPTIONS`: the non-empty entries of `normalHeaders` and
the echoed origin unless the policy is allow-all, never `preflightHeaders`. -/
theorem applyProxyCors_eq_simple (p : cors) (req : Request) (resp : Response)
    (m key : GoString) (a : Bool) (hm : m ≠ bytes "OPTIONS") :
    (p.applyProxyCors req resp).StatusCode = resp.StatusCode
      ∧ (p.applyProxyCors req resp).Body = resp.Body
      ∧ p.applyProxyCors req resp
        = (if req.Origin = [] ∨ sameOrigin req ∨ p.validateOrigin req.Origin = false then resp
            else (p.applyCors { Request := { req with Method := m }, Response := resp,
                                aborted := a }).Response)
      ∧ (p.applyProxyCors req resp).Header.lookup key
        = (if req.Origin = [] ∨ sameOrigin req ∨ p.validateOrigin req.Origin = false
            then resp.Header.lookup key
            else if key = bytes "Access-Control-Allow-Origin" ∧ p.allowAllOrigins = false
              then some req.Origin
              else (written p.normalHeaders key).or (resp.Header.lookup key)) := by
  rw [applyProxyCors_eq]
  by_cases hc : req.Origin = [] ∨ sameOrigin req ∨ p.validateOrigin req.Origin = false
  · simp [hc]
  · simp only [hc, if_false]
    have ho : req.Origin ≠ [] := fun e => hc (Or.inl e)
    have hs : ¬ sameOrigin req := fun e => hc (Or.inr (Or.inl e))
    have hv : p.validateOrigin req.Origin = true := by
      cases h : p.validateOrigin req.Origin
      · exact absurd (Or.inr (Or.inr h)) hc
      · rfl
    have hs2 : ¬ sameOrigin { req with Method := m } := hs
    refine ⟨?_, ?_, ?_, ?_⟩
    · cases p.allowAllOrigins <;> rfl
    · cases p.allowAllOrigins <;> rfl
    · rw [applyCors_eq]
      simp only [ho, hs2, hv, hm, if_false, Bool.true_eq_false]
      cases p.allowAllOrigins <;> rfl
    · rw [← lookup_accepted p.normalHeaders resp.Header p.allowAllOrigins]
      cases p.allowAllOrigins <;> rfl

/-- Witness of C17: an `OPTIONS` request with `Origin: http://github.com`
through the proxy path under the policy of `TestPassesAllowOrigins`: the
response keeps its status, gets the headers of a simple request and none of the
preflight headers. -/
theorem applyProxyCors_eq_simple_witness :
    ((passesPolicy.applyProxyCors
            (testContext (bytes "OPTIONS") (bytes "http://github.com")).Request
            upstreamResponse).StatusCode = upstreamResponse.StatusCode
        ∧ (passesPolicy.applyProxyCors
            (testContext (bytes "OPTIONS") (bytes "http://github.com")).Request
            upstreamResponse).Body = upstreamResponse.Body
        ∧ passesPolicy.applyProxyCors
            (testContext (bytes "OPTIONS") (bytes "http://github.com")).Request upstreamResponse
          = (if (testContext (bytes "OPTIONS") (bytes "http://github.com")).Request.Origin = []
                ∨ sameOrigin (testContext (bytes "OPTIONS") (bytes "http://github.com")).Request
                ∨ passesPolicy.validateOrigin
                    (testContext (bytes "OPTIONS") (bytes "http://github.com")).Request.Origin
                  = false
              then upstreamResponse
              else (passesPolicy.applyCors
                { Request :=
                    { (testContext (bytes "OPTIONS") (bytes "http://github.com")).Request with
                      Method := bytes "GET" }
                  Response := upstreamResponse
                  aborted := false }).Response)
        ∧ (passesPolicy.applyProxyCors
            (testContext (bytes "OPTIONS") (bytes "http://github.com")).Request
            upstreamResponse).Header.lookup (bytes "Access-Control-Allow-Methods")
          = (if (testContext (bytes "OPTIONS") (bytes "http://github.com")).Request.Origin = []
                ∨ sameOrigin (testContext (bytes "OPTIONS") (bytes "http://github.com")).Request
                ∨ passesPolicy.validateOrigin
                    (testContext (bytes "OPTIONS") (bytes "http://github.com")).Request.Origin
                  = false
              then upstreamResponse.Header.lookup (bytes "Access-Control-Allow-Methods")
              else if bytes "Access-Control-Allow-Methods" = bytes "Access-Control-Allow-Origin"
                  ∧ passesPolicy.allowAllOrigins = false
                then some (testContext (bytes "OPTIONS") (bytes "http://github.com")).Request.Origin
                else (written passesPolicy.normalHeaders
                        (bytes "Access-Control-Allow-Methods")).or
                      (upstreamResponse.Header.lookup (bytes "Access-Control-Allow-Methods"))))
      ∧ passesPolicy.applyProxyCors
          (testContext (bytes "OPTIONS") (bytes "http://github.com")).Request upstreamResponse
        = { Header := [(bytes "Access-Control-Expose-Headers", bytes "Data,X-User"),
              (bytes "Vary", bytes "Origin"),
              (bytes "Access-Control-Allow-Origin", bytes "http://github.com")]
            StatusCode := 200
            Body := bytes "get" }
      ∧ passesPolicy.applyProxyCors
          (testContext (bytes "GET") (bytes "https://dummy.com")).Request upstreamResponse
        = upstreamResponse :=
  ⟨applyProxyCors_eq_simple passesPolicy
      (testContext (bytes "OPTIONS") (bytes "http://github.com")).Request upstreamResponse
      (bytes "GET") (bytes "Access-Control-Allow-Methods") false (by decide),
    by decide, by decide⟩

/-- C18: `AddAllowMethods`, `AddAllowHeaders` and `AddExposeHeaders` append their
arguments, in order and without removing anything, to `AllowMethods`,
`AllowHeaders` and `ExposeHeaders`, leave every other field as it was, and
leave the configuration unchanged when called without arguments. -/
theorem AddAllow_append (c : Config) (xs : List GoString) :
    c.AddAllowMethods xs = { c with AllowMethods := c.AllowMethods ++ xs }
      ∧ c.AddAllowHeaders xs = { c with AllowHeaders := c.AllowHeaders ++ xs }
      ∧ c.AddExposeHeaders xs = { c with ExposeHeaders := c.ExposeHeaders ++ xs }
      ∧ c.AddAllowMethods [] = c ∧ c.AddAllowHeaders [] = c ∧ c.AddExposeHeaders [] = c
      ∧ ((((({} : Config).AddAllowMethods [bytes "POST"]).AddAllowMethods
            [bytes "GET", bytes "PUT"]).AddAllowMethods [bytes "GET"]).AllowMethods
          = [bytes "POST", bytes "GET", bytes "PUT", bytes "GET"]) := by
  refine ⟨rfl, rfl, rfl, ?_, ?_, ?_, by decide⟩ <;>
    simp [Config.AddAllowMethods, Config.AddAllowHeaders, Config.AddExposeHeaders]

/-- C19: both header maps hold `Access-Control-Allow-Credentials` exactly when
`AllowCredentials` is set, and then with the value `"true"`; the key is absent
otherwise. The configurations of `TestGenerateNormalHeaders_AllowCredentials`
and `TestGeneratePreflightHeaders_AllowCredentials` give two entries. -/
theorem credentials_header (c : Config) :
    (generateNormalHeaders c).lookup (bytes "Access-Control-Allow-Credentials")
        = (if c.AllowCredentials = true then some (bytes "true") else none)
      ∧ (generatePreflightHeaders c).lookup (bytes "Access-Control-Allow-Credentials")
        = (if c.AllowCredentials = true then some (bytes "true") else none)
      ∧ generateNormalHeaders { AllowCredentials := true }
        = [(bytes "Access-Control-Allow-Credentials", bytes "true"),
           (bytes "Vary", bytes "Origin")]
      ∧ generatePreflightHeaders { AllowCredentials := true }
        = [(bytes "Access-Control-Allow-Credentials", bytes "true"),
           (bytes "Vary", bytes "Origin")] := by
  have k1 : ¬ bytes "Access-Control-Expose-Headers" = bytes "Access-Control-Allow-Credentials" := by
    decide
  have k2 : ¬ bytes "Access-Control-Allow-Origin" = bytes "Access-Control-Allow-Credentials" := by
    decide
  have k3 : ¬ bytes "Vary" = bytes "Access-Control-Allow-Credentials" := by decide
  have k4 : ¬ bytes "Access-Control-Allow-Methods" = bytes "Access-Control-Allow-Credentials" := by
    decide
  have k5 : ¬ bytes "Access-Control-Allow-Headers" = bytes "Access-Control-Allow-Credentials" := by
    decide
  have k6 : ¬ bytes "Access-Control-Max-Age" = bytes "Access-Control-Allow-Credentials" := by
    decide
  refine ⟨?_, ?_, by decide, by decide⟩
  · unfold generateNormalHeaders
    simp only []
    split_ifs <;> simp_all [lookup_set, HeaderMap.lookup]
  · unfold generatePreflightHeaders
    simp only []
    split_ifs <;> simp_all [lookup_set, HeaderMap.lookup]

/-- C20: both header maps hold `Access-Control-Allow-Origin: *` and no `Vary`
when `AllowAllOrigins` is set, and `Vary: Origin` and no
`Access-Control-Allow-Origin` entry at all (so no non-empty one) when it is
not; with every other field zero the map has exactly one entry. -/
theorem allow_origin_and_vary_header (c : Config) (b : Bool) :
    (generateNormalHeaders c).lookup (bytes "Access-Control-Allow-Origin")
        = (if c.AllowAllOrigins = true then some (bytes "*") else none)
      ∧ (generateNormalHeaders c).lookup (bytes "Vary")
        = (if c.AllowAllOrigins = true then none else some (bytes "Origin"))
      ∧ (generatePreflightHeaders c).lookup (bytes "Access-Control-Allow-Origin")
        = (if c.AllowAllOrigins = true then some (bytes "*") else none)
      ∧ (generatePreflightHeaders c).lookup (bytes "Vary")
        = (if c.AllowAllOrigins = true then none else some (bytes "Origin"))
      ∧ (generateNormalHeaders { AllowAllOrigins := b }).length = 1
      ∧ (generatePreflightHeaders { AllowAllOrigins := b }).length = 1 := by
  have k1 : ¬ bytes "Access-Control-Expose-Headers" = bytes "Access-Control-Allow-Origin" := by
    decide
  have k2 : ¬ bytes "Access-Control-Allow-Credentials" = bytes "Access-Control-Allow-Origin" := by
    decide
  have k3 : ¬ bytes "Vary" = bytes "Access-Control-Allow-Origin" := by decide
  have k4 : ¬ bytes "Access-Control-Allow-Methods" = bytes "Access-Control-Allow-Origin" := by
    decide
  have k5 : ¬ bytes "Access-Control-Allow-Headers" = bytes "Access-Control-Allow-Origin" := by
    decide
  have k6 : ¬ bytes "Access-Control-Max-Age" = bytes "Access-Control-Allow-Origin" := by decide
  have v1 : ¬ bytes "Access-Control-Expose-Headers" = bytes "Vary" := by decide
  have v2 : ¬ bytes "Access-Control-Allow-Credentials" = bytes "Vary" := by decide
  have v3 : ¬ bytes "Access-Control-Allow-Origin" = bytes "Vary" := by decide
  have v4 : ¬ bytes "Access-Control-Allow-Methods" = bytes "Vary" := by decide
  have v5 : ¬ bytes "Access-Control-Allow-Headers" = bytes "Vary" := by decide
  have v6 : ¬ bytes "Access-Control-Max-Age" = bytes "Vary" := by decide
  refine ⟨?_, ?_, ?_, ?_, ?_, ?_⟩
  · unfold generateNormalHeaders
    simp only []
    split_ifs <;> simp_all [lookup_set, HeaderMap.lookup]
  · unfold generateNormalHeaders
    simp only []
    split_ifs <;> simp_all [lookup_set, HeaderMap.lookup]
  · unfold generatePreflightHeaders
    simp only []
    split_ifs <;> simp_all [lookup_set, HeaderMap.lookup]
  · unfold generatePreflightHeaders
    simp only []
    split_ifs <;> simp_all [lookup_set, HeaderMap.lookup]
  · cases b <;> decide
  · cases b <;> decide

/-- C21: for a positive `MaxAge` the preflight map holds
`Access-Control-Max-Age` with the decimal rendering of the whole seconds of
`MaxAge` (the rendering reads back as that number); the key is absent when
`MaxAge` is zero, and the normal map never holds it. Twelve hours give
`"43200"`, ten hours `"36000"`. -/
theorem maxAge_header (c : Config) :
    (generatePreflightHeaders c).lookup (bytes "Access-Control-Max-Age")
        = (if c.MaxAge > 0 then some (FormatInt (c.MaxAge.toNat / 1000000000)) else none)
      ∧ decimalValue (FormatInt (c.MaxAge.toNat / 1000000000)) = c.MaxAge.toNat / 1000000000
      ∧ (generatePreflightHeaders { c with MaxAge := 0 }).lookup (bytes "Access-Control-Max-Age")
        = none
      ∧ (generateNormalHeaders c).lookup (bytes "Access-Control-Max-Age") = none
      ∧ (generatePreflightHeaders { MaxAge := 43200000000000 }).lookup
          (bytes "Access-Control-Max-Age") = some (bytes "43200")
      ∧ (generatePreflightHeaders { MaxAge := 36000000000000 }).lookup
          (bytes "Access-Control-Max-Age") = some (bytes "36000") := by
  have k1 : ¬ bytes "Access-Control-Expose-Headers" = bytes "Access-Control-Max-Age" := by decide
  have k2 : ¬ bytes "Access-Control-Allow-Credentials" = bytes "Access-Control-Max-Age" := by
    decide
  have k3 : ¬ bytes "Vary" = bytes "Access-Control-Max-Age" := by decide
  have k4 : ¬ bytes "Access-Control-Allow-Methods" = bytes "Access-Control-Max-Age" := by decide
  have k5 : ¬ bytes "Access-Control-Allow-Headers" = bytes "Access-Control-Max-Age" := by decide
  have k6 : ¬ bytes "Access-Control-Allow-Origin" = bytes "Access-Control-Max-Age" := by decide
  have hdiv : c.MaxAge > 0 → (c.MaxAge / 1000000000).toNat = c.MaxAge.toNat / 1000000000 := by
    intro h
    omega
  refine ⟨?_, decimalValue_FormatInt _, ?_, ?_, by decide, by decide⟩
  · unfold generatePreflightHeaders
    simp only []
    by_cases hm : c.MaxAge > 0
    · simp only [hm, if_true, hdiv hm]
      split_ifs <;> simp_all [lookup_set, HeaderMap.lookup]
    · simp only [hm, if_false]
      split_ifs <;> simp_all [lookup_set, HeaderMap.lookup]
  · unfold generatePreflightHeaders
    simp only [gt_iff_lt, lt_self_iff_false, if_false]
    split_ifs <;> simp_all [lookup_set, HeaderMap.lookup]
  · unfold generateNormalHeaders
    simp only []
    split_ifs <;> simp_all [lookup_set, HeaderMap.lookup]

/-- C22: with a non-empty `ExposeHeaders` list the normal map holds
`Access-Control-Expose-Headers` with the entries in title case, in their
original order, joined by commas; with a non-empty `AllowHeaders` list the
preflight map holds `Access-Control-Allow-Headers` with the entries trimmed
and in title case, joined by commas; each key is absent when its list is
empty. `["X-user","xPassword"]` gives `"X-User,Xpassword"` and
`["Content-type","timeStamp "]` gives `"Content-Type,Timestamp"`. -/
theorem header_lists_rendered (c : Config) :
    (generateNormalHeaders c).lookup (bytes "Access-Control-Expose-Headers")
        = (if c.ExposeHeaders = [] then none
            else some (Join (c.ExposeHeaders.map CanonicalHeaderKey) (bytes ",")))
      ∧ (generatePreflightHeaders c).lookup (bytes "Access-Control-Allow-Headers")
        = (if c.AllowHeaders = [] then none
            else some (Join (c.AllowHeaders.map (fun h => CanonicalHeaderKey (TrimSpace h)))
              (bytes ",")))
      ∧ (generateNormalHeaders { ExposeHeaders := [bytes "X-user", bytes "xPassword"] }).lookup
          (bytes "Access-Control-Expose-Headers") = some (bytes "X-User,Xpassword")
      ∧ (generatePreflightHeaders
          { AllowHeaders := [bytes "Content-type", bytes "timeStamp "] }).lookup
          (bytes "Access-Control-Allow-Headers") = some (bytes "Content-Type,Timestamp") := by
  have k1 : ¬ bytes "Access-Control-Allow-Credentials" = bytes "Access-Control-Expose-Headers" := by
    decide
  have k2 : ¬ bytes "Access-Control-Allow-Origin" = bytes "Access-Control-Expose-Headers" := by
    decide
  have k3 : ¬ bytes "Vary" = bytes "Access-Control-Expose-Headers" := by decide
  have v1 : ¬ bytes "Access-Control-Allow-Credentials" = bytes "Access-Control-Allow-Headers" := by
    decide
  have v2 : ¬ bytes "Access-Control-Allow-Origin" = bytes "Access-Control-Allow-Headers" := by
    decide
  have v3 : ¬ bytes "Vary" = bytes "Access-Control-Allow-Headers" := by decide
  have v4 : ¬ bytes "Access-Control-Allow-Methods" = bytes "Access-Control-Allow-Headers" := by
    decide
  have v5 : ¬ bytes "Access-Control-Max-Age" = bytes "Access-Control-Allow-Headers" := by decide
  refine ⟨?_, ?_, by decide, by decide⟩
  · unfold generateNormalHeaders
    simp only [gt_iff_lt, List.length_pos]
    split_ifs <;> simp_all [lookup_set, HeaderMap.lookup]
  · unfold generatePreflightHeaders
    simp only [gt_iff_lt, List.length_pos]
    split_ifs <;> simp_all [lookup_set, HeaderMap.lookup]

/-- C23: with a non-empty `AllowMethods` list the preflight map holds
`Access-Control-Allow-Methods` with the methods trimmed and upper-cased, in
order of first occurrence, those that agree after trimming and case-folding
rendered once, joined by commas (upper-casing the case-folded form of a method
is upper-casing its trimmed form); the key is absent when the list is empty. -/
theorem methods_rendered (c : Config) (m : GoString) :
    (generatePreflightHeaders c).lookup (bytes "Access-Control-Allow-Methods")
        = (if c.AllowMethods = [] then none
            else some (Join
              ((keepFirst (c.AllowMethods.map (fun x => ToLower (TrimSpace x)))).map ToUpper)
              (bytes ",")))
      ∧ ToUpper (ToLower (TrimSpace m)) = ToUpper (TrimSpace m)
      ∧ (generatePreflightHeaders
          { AllowMethods := [bytes "GET ", bytes "post", bytes "PUT", bytes " put  "] }).lookup
          (bytes "Access-Control-Allow-Methods") = some (bytes "GET,POST,PUT")
      ∧ (generatePreflightHeaders passesConfig).lookup (bytes "Access-Control-Allow-Methods")
          = some (bytes "GET,POST,PUT,HEAD") := by
  have v1 : ¬ bytes "Access-Control-Allow-Credentials" = bytes "Access-Control-Allow-Methods" := by
    decide
  have v2 : ¬ bytes "Access-Control-Allow-Origin" = bytes "Access-Control-Allow-Methods" := by
    decide
  have v3 : ¬ bytes "Vary" = bytes "Access-Control-Allow-Methods" := by decide
  have v4 : ¬ bytes "Access-Control-Allow-Headers" = bytes "Access-Control-Allow-Methods" := by
    decide
  have v5 : ¬ bytes "Access-Control-Max-Age" = bytes "Access-Control-Allow-Methods" := by decide
  refine ⟨?_, ToUpper_ToLower _, by decide, by decide⟩
  unfold generatePreflightHeaders
  simp only [gt_iff_lt, List.length_pos, normalize_eq]
  split_ifs <;> simp_all [lookup_set, HeaderMap.lookup]

/-- C24: `normalize` gives the trimmed, lower-cased values in order of first
occurrence with later duplicates removed; the result has no duplicates, is at
most as long as the argument, and is left unchanged by `normalize`; the empty
list is mapped to the empty list. The list of `TestNormalize` gives
`["http-access", "post", ""]`. -/
theorem normalize_spec (vs : List GoString) :
    normalize vs = keepFirst (vs.map (fun v => ToLower (TrimSpace v)))
      ∧ (normalize vs).Nodup
      ∧ (normalize vs).length ≤ vs.length
      ∧ normalize (normalize vs) = normalize vs
      ∧ normalize [] = []
      ∧ normalize [bytes "http-Access ", bytes "Post", bytes "POST", bytes " poSt  ",
          bytes "HTTP-Access", bytes ""] = [bytes "http-access", bytes "post", bytes ""] := by
  refine ⟨normalize_eq vs, ?_, ?_, ?_, by decide, by decide⟩
  · rw [normalize_eq]
    exact keepFirst_nodup _
  · rw [normalize_eq]
    simpa using keepFirst_length_le (vs.map (fun v => ToLower (TrimSpace v)))
  · have hmap : (normalize vs).map (fun v => ToLower (TrimSpace v)) = normalize vs := by
      conv_rhs => rw [← List.map_id (normalize vs)]
      apply List.map_congr_left
      intro x hx
      obtain ⟨s, _, hs⟩ := (mem_normalize x vs).mp hx
      rw [hs]
      exact fold_idempotent s
    rw [normalize_eq (normalize vs), hmap, normalize_eq vs]
    exact keepFirst_of_nodup _ (keepFirst_nodup _)

/-- C25: when every entry of `AllowOrigins` has at most one `*`,
`parseWildcardRules` returns (no slice is out of range, no panic): with
wildcards enabled, one rule per entry that contains a `*`, in configuration
order, and no rule with wildcards disabled. -/
theorem parseWildcardRules_total (config : Config)
    (h : ∀ o ∈ config.AllowOrigins, Count o starByte ≤ 1) :
    config.parseWildcardRules
        = .ok (if config.AllowWildcard = true then
            (config.AllowOrigins.filter (fun o => decide (starByte ∈ o))).map ruleOf else [])
      ∧ (∃ rules, config.parseWildcardRules = .ok rules
          ∧ rules.length
            = if config.AllowWildcard = true then
                (config.AllowOrigins.filter (fun o => Contains o starByte)).length else 0)
      ∧ config.parseWildcardRules ≠ .error (bytes "slice bounds out of range") := by
  have hok := parseWildcardRules_ok config (fun _ => h)
  have hc : (fun o => Contains o starByte) = (fun o : GoString => decide (starByte ∈ o)) := by
    funext o
    by_cases hm : starByte ∈ o
    · simp [hm, (Contains_iff o starByte).mpr hm]
    · simp [hm, (Contains_false_iff o starByte).mpr hm]
  refine ⟨?_, ⟨_, hok, ?_⟩, ?_⟩
  · rw [hok]
  · rw [hc]
    cases config.AllowWildcard <;> simp
  · rw [hok]
    simp

/-- Witness of C25: the five patterns of `TestWildcard` compile to four rules,
in order; the literal origin gives none. -/
theorem parseWildcardRules_total_witness :
    (wildcardConfig.parseWildcardRules
        = .ok (if wildcardConfig.AllowWildcard = true then
            (wildcardConfig.AllowOrigins.filter (fun o => decide (starByte ∈ o))).map ruleOf
            else [])
      ∧ (∃ rules, wildcardConfig.parseWildcardRules = .ok rules
          ∧ rules.length
            = if wildcardConfig.AllowWildcard = true then
                (wildcardConfig.AllowOrigins.filter (fun o => Contains o starByte)).length
              else 0)
      ∧ wildcardConfig.parseWildcardRules ≠ .error (bytes "slice bounds out of range"))
      ∧ wildcardConfig.parseWildcardRules
        = .ok [(bytes "https://", bytes ".github.com"), (bytes "https://api", star),
               (bytes "http:/", star), (star, bytes ".golang.org")]
      ∧ Config.parseWildcardRules { wildcardConfig with AllowWildcard := false } = .ok [] :=
  ⟨parseWildcardRules_total wildcardConfig (by decide), by decide, by decide⟩

/-- C26: two configurations that are both compiled and differ only in
`AllowBrowserExtensions`, `AllowWebSockets` and `AllowFiles` give policies with
the same decision on every origin. -/
theorem validateOrigin_scheme_toggles (c : Config) (b1 b2 b3 : Bool) (p q : cors)
    (o : GoString) (hp : newCors c = .ok p)
    (hq : newCors { c with AllowBrowserExtensions := b1, AllowWebSockets := b2,
                           AllowFiles := b3 } = .ok q) :
    p.validateOrigin o = q.validateOrigin o := by
  rw [newCors_eq] at hp hq
  have hw : Config.parseWildcardRules
      { c with AllowBrowserExtensions := b1, AllowWebSockets := b2, AllowFiles := b3 }
      = c.parseWildcardRules := rfl
  rw [hw] at hq
  cases hv : c.Validate with
  | error e => simp [hv] at hp
  | ok u =>
    cases hr : c.parseWildcardRules with
    | error e => simp [hv, hr] at hp
    | ok wRules =>
      simp only [hv, hr, Except.ok.injEq] at hp
      cases hv2 : Config.Validate
          { c with AllowBrowserExtensions := b1, AllowWebSockets := b2, AllowFiles := b3 } with
      | error e => simp [hv2] at hq
      | ok u2 =>
        simp only [hv2, hr, Except.ok.injEq] at hq
        subst hp
        subst hq
        rfl

/-- Witness of C26: the second configuration of `TestValidateOrigin`, with and
without `AllowBrowserExtensions`; the origin
`"chrome-extension://random-extension-id"` is rejected either way. -/
theorem validateOrigin_scheme_toggles_witness :
    (compiled funcConfig []).validateOrigin (bytes "chrome-extension://random-extension-id")
        = (compiled { funcConfig with AllowBrowserExtensions := false, AllowWebSockets := false,
                                      AllowFiles := false } []).validateOrigin
            (bytes "chrome-extension://random-extension-id")
      ∧ funcConfig.AllowBrowserExtensions = true
      ∧ (compiled funcConfig []).validateOrigin (bytes "chrome-extension://random-extension-id")
        = false :=
  ⟨validateOrigin_scheme_toggles funcConfig false false false _ _ _ (by rfl) (by rfl),
    by decide, by decide⟩

/-- C27: a trailing wildcard admits origins that do not start with the text
before the star: the pattern `"https://api.*"` (wildcards enabled, no
predicate, no other origin) accepts `"https://apievil.com"`, and `"http://*"`
accepts `"http:/x"`. -/
theorem trailing_wildcard_admits_more :
    (∃ p, newCors (patternConfig (bytes "https://api." ++ star)) = .ok p
        ∧ (patternConfig (bytes "https://api." ++ star)).AllowOriginFunc.isNone = true
        ∧ HasPrefix (bytes "https://apievil.com") (bytes "https://api.") = false
        ∧ p.validateOrigin (bytes "https://apievil.com") = true)
      ∧ (∃ p, newCors (patternConfig (bytes "http://" ++ star)) = .ok p
        ∧ (patternConfig (bytes "http://" ++ star)).AllowOriginFunc.isNone = true
        ∧ HasPrefix (bytes "http:/x") (bytes "http://") = false
        ∧ p.validateOrigin (bytes "http:/x") = true)
      ∧ bytes "https://api." ++ star = bytes "https://api.*"
      ∧ bytes "http://" ++ star = bytes "http://*" :=
  ⟨⟨compiled (patternConfig (bytes "https://api." ++ star)) [(bytes "https://api", star)],
      by rfl, by decide, by decide, by decide⟩,
    ⟨compiled (patternConfig (bytes "http://" ++ star)) [(bytes "http:/", star)],
      by rfl, by decide, by decide, by decide⟩,
    by decide, by decide⟩

/-- C28: when a configuration and the same configuration with further origins
appended are both compiled, every origin accepted under the first is accepted
under the second. -/
theorem validateOrigin_monotone (c : Config) (extra : List GoString) (p q : cors)
    (o : GoString) (hp : newCors c = .ok p)
    (hq : newCors { c with AllowOrigins := c.AllowOrigins ++ extra } = .ok q)
    (hv : p.validateOrigin o = true) : q.validateOrigin o = true := by
  rw [newCors_eq] at hp hq
  cases hv1 : c.Validate with
  | error e => simp [hv1] at hp
  | ok u =>
    cases hr1 : c.parseWildcardRules with
    | error e => simp [hv1, hr1] at hp
    | ok w1 =>
      simp only [hv1, hr1, Except.ok.injEq] at hp
      cases hv2 : Config.Validate { c with AllowOrigins := c.AllowOrigins ++ extra } with
      | error e => simp [hv2] at hq
      | ok u2 =>
        cases hr2 : Config.parseWildcardRules
            { c with AllowOrigins := c.AllowOrigins ++ extra } with
        | error e => simp [hv2, hr2] at hq
        | ok w2 =>
          simp only [hv2, hr2, Except.ok.injEq] at hq
          subst hp
          subst hq
          have hsub : ∀ w ∈ w1, w ∈ w2 := by
            cases hw : c.AllowWildcard
            · have e1 : c.parseWildcardRules = .ok [] := by
                simp [Config.parseWildcardRules, hw]
              rw [e1] at hr1
              cases hr1
              intro w hw1
              simp at hw1
            · have h1 := parseWildcardRules_ok c
                (fun _ => count_le_one_of_parse_ok c w1 hr1 hw)
              have h2 := parseWildcardRules_ok
                { c with AllowOrigins := c.AllowOrigins ++ extra }
                (fun _ => count_le_one_of_parse_ok _ w2 hr2 hw)
              rw [h1] at hr1
              rw [h2] at hr2
              simp only [hw, if_true, Except.ok.injEq] at hr1 hr2
              subst hr1
              subst hr2
              intro w hw1
              simp only [List.filter_append, List.map_append, List.mem_append]
              exact Or.inl hw1
          rw [validateOrigin_iff] at hv ⊢
          rcases hv with h | h | h | h
          · left
            simp only [compiled, Bool.or_eq_true, decide_eq_true_eq, List.mem_append] at h ⊢
            rcases h with h | h
            · exact Or.inl h
            · exact Or.inr (Or.inl h)
          · right; left
            simp only [compiled, mem_normalize, List.mem_append] at h ⊢
            obtain ⟨s, hs, e⟩ := h
            exact ⟨s, Or.inl hs, e⟩
          · right; right; left
            obtain ⟨w, hw, hm⟩ := h
            exact ⟨w, hsub w hw, hm⟩
          · right; right; right
            exact h

/-- Witness of C28: the literal configuration of `TestWildcard` and the same
with `"http://google.com"` appended; `"https://github.com"` stays accepted. -/
theorem validateOrigin_monotone_witness :
    (compiled { literalConfig with
        AllowOrigins := literalConfig.AllowOrigins ++ [bytes "http://google.com"] }
      []).validateOrigin (bytes "https://github.com") = true :=
  validateOrigin_monotone literalConfig [bytes "http://google.com"] (compiled literalConfig [])
    _ (bytes "https://github.com") (by rfl) (by rfl) (by decide)

end Cors
